import Mathlib

/-!
Verification development for the adaptive two-pass document-to-chunk pipeline
(Project-Astryx).  Python strings are modelled as `List Char`; Python `dict`s
either as association lists (when iteration order matters) or as lookup
functions; machine integers as `Nat`/`Int`.  Definitions are shallow
embeddings of the functions in
`src/preproc/doc_processing/chunker.py` and
`src/ingestion/doc_processing/processor.py`.
-/

namespace Astryx

/-- Python strings modelled as lists of characters. -/
abbrev PyStr := List Char

/-- Whitespace test matching Python's `str.strip()` / regex `\s` default set
(ASCII whitespace; exotic Unicode spaces are out of scope for this model). -/
def pyIsSpace (c : Char) : Bool :=
  c = ' ' || c = '\t' || c = '\n' || c = '\x0d' || c = '\x0b' || c = '\x0c'

/-- Python `s.lstrip()`. -/
def trimLeft (s : PyStr) : PyStr := s.dropWhile pyIsSpace

/-- Python `s.rstrip()`. -/
def trimRight (s : PyStr) : PyStr := (s.reverse.dropWhile pyIsSpace).reverse

/-- Python `s.strip()`. -/
def pyStrip (s : PyStr) : PyStr := trimRight (trimLeft s)

/-- Python `sub in s` substring containment. -/
def pyContains (s sub : PyStr) : Bool :=
  sub.isPrefixOf s ||
    match s with
    | [] => false
    | _ :: rest => pyContains rest sub

/-- Python `str(d)` for one decimal digit. -/
def digitChar10 (d : Nat) : Char :=
  match d with
  | 0 => '0' | 1 => '1' | 2 => '2' | 3 => '3' | 4 => '4'
  | 5 => '5' | 6 => '6' | 7 => '7' | 8 => '8' | 9 => '9'
  | _ => '?'

/-- Little-endian decimal digits of `n`, driven by explicit fuel so that the
definition reduces in the kernel. -/
def digitsLE (fuel n : Nat) : List Nat :=
  match fuel with
  | 0 => []
  | f + 1 => if n = 0 then [] else n % 10 :: digitsLE f (n / 10)

/-- Python `str(n)` for a natural number. -/
def decChars (n : Nat) : PyStr :=
  if n = 0 then ['0'] else ((digitsLE n n).map digitChar10).reverse

/-- Python f-string `{n:02d}` formatting. -/
def pad2 (n : Nat) : PyStr :=
  if n < 10 then '0' :: decChars n else decChars n

/-- Image record as produced by the processor and consumed by the chunker
(`image_id`, `page_number`, `base64`, optional `caption` / `ocr_text`;
absent string keys are modelled as the empty string, which is
indistinguishable from absence in every use site's `get(..., "")`). -/
structure Image where
  image_id : Option PyStr := none
  page_number : Option Nat := none
  base64 : PyStr := []
  caption : PyStr := []
  ocr_text : PyStr := []
deriving DecidableEq, Repr

/-- Chunk metadata dict built by `DocumentChunker._create_chunk_metadata`.
Keys that a call site does not pass (`has_tables`, `has_caption`, ...) are
modelled by their `kwargs.get` defaults. -/
structure ChunkMetadata where
  source_type : String := "application/octet-stream"
  file_name : PyStr := []
  images : List Image := []
  image_count : Nat := 0
  chunk_complex : Bool := false
  document_complex : Bool := false
  modality : List String := ["text"]
  has_tables : Bool := false
  has_caption : Option Bool := none
  has_ocr_text : Option Bool := none
  primary_image : Option Bool := none
deriving DecidableEq, Repr

/-- The `Chunk` dataclass of `chunker.py`.  `source_page` is a `Nat`: every
chunk the chunker constructs goes through `_create_chunk`, which always
supplies a numeric page (default 1), so the dataclass's `None` default is
unreachable for chunker output. -/
structure Chunk where
  content : PyStr
  chunk_id : PyStr
  source_page : Nat := 1
  char_start : Nat := 0
  char_end : Nat := 0
  metadata : Option ChunkMetadata := none
deriving DecidableEq, Repr

/-- Metadata dict of a text node emitted by `extract_nodes`. -/
structure TextNodeMeta where
  file_name : PyStr
  char_start : Nat
  char_len : Nat
  is_complex : Bool
  has_tables : Bool
  image_refs : List PyStr
  page : Option Nat
deriving DecidableEq, Repr

/-- Metadata dict of an image node emitted by `extract_nodes`. -/
structure ImageNodeMeta where
  file_name : PyStr
  page : Nat
deriving DecidableEq, Repr

/-- Unified node: the two dict shapes built by `extract_nodes`.  A text node
carries empty `relationships` and an image node carries exactly one
relationship entry `{"1": {"node_id": parent, "node_type": "1"}}`, so the
parent text-node id is the image constructor's last field. -/
inductive Node where
  | text (id_ : PyStr) (text : PyStr) (metadata : TextNodeMeta)
  | image (id_ : PyStr) (image : PyStr) (metadata : ImageNodeMeta) (parent_node_id : PyStr)
deriving DecidableEq, Repr

/-- The `id_` field of either node variant. -/
def Node.nodeId : Node → PyStr
  | .text i _ _ => i
  | .image i _ _ _ => i

/-- Result dict of `extract_nodes`. -/
structure NodesDoc where
  file_sha256 : Option PyStr
  user : Option PyStr
  source_mime : Option String
  total_nodes : Nat
  nodes : List Node
deriving DecidableEq, Repr

/-- Hash suffix selection of `extract_nodes` line 623:
`file_sha256[-4:] if file_sha256 and len(file_sha256) >= 4 else "0000"`. -/
def sha4Of (file_sha256 : Option PyStr) : PyStr :=
  match file_sha256 with
  | some s => if s ≠ [] ∧ 4 ≤ s.length then s.drop (s.length - 4) else ['0','0','0','0']
  | none => ['0','0','0','0']

/-- Text-node id `f"txt_{sha4}_p{page:02d}_c{cnt:02d}"`. -/
def txtId (sha4 : PyStr) (page cnt : Nat) : PyStr :=
  ('t' :: 'x' :: 't' :: '_' :: sha4) ++ ('_' :: 'p' :: pad2 page) ++ ('_' :: 'c' :: pad2 cnt)

/-- Image-node id `f"img_{sha4}_p{page:02d}_i{cnt:02d}"`. -/
def imgId (sha4 : PyStr) (page cnt : Nat) : PyStr :=
  ('i' :: 'm' :: 'g' :: '_' :: sha4) ++ ('_' :: 'p' :: pad2 page) ++ ('_' :: 'i' :: pad2 cnt)

/-- Pre-computed `image_refs` loop of `extract_nodes` (lines 633-640):
`f"img_{sha4}_p{image_page:02d}_i{chunk_image_start + i:02d}"` for the i-th
image, with `chunk_image_start = image_counter + 1`; here the running
counter argument is `image_counter + i`, incremented per image. -/
def imageRefsOf (sha4 : PyStr) : List Image → Nat → List PyStr
  | [], _ => []
  | image :: rest, image_counter =>
    imgId sha4 (image.page_number.getD 1) (image_counter + 1) :: imageRefsOf sha4 rest (image_counter + 1)

/-- Image-node emission loop of `extract_nodes` (lines 666-683): increments
the global `image_counter` per image and links each image node back to the
enclosing chunk's text node id. -/
def imageNodesOf (sha4 : PyStr) (file_name : PyStr) (node_id : PyStr) :
    List Image → Nat → List Node
  | [], _ => []
  | image :: rest, image_counter =>
    Node.image (imgId sha4 (image.page_number.getD 1) (image_counter + 1)) image.base64
      { file_name := file_name, page := image.page_number.getD 1 } node_id
      :: imageNodesOf sha4 file_name node_id rest (image_counter + 1)

/-- Main loop of `extract_nodes` (lines 625-683): iterate chunks, emitting one
text node per chunk (global `text_counter`) followed by one image node per
attached image (global `image_counter`). -/
def extractNodesGo (sha4 : PyStr) : List Chunk → Nat → Nat → List Node
  | [], _, _ => []
  | chunk :: rest, text_counter, image_counter =>
    let md := chunk.metadata.getD {}
    let chunk_images := md.images
    let t' := text_counter + 1
    let node_id := txtId sha4 chunk.source_page t'
    let text_node := Node.text node_id chunk.content
      { file_name := md.file_name
        char_start := chunk.char_start
        char_len := chunk.content.length
        is_complex := md.document_complex
        has_tables := md.has_tables
        image_refs := imageRefsOf sha4 chunk_images image_counter
        page := if 0 < chunk.source_page then some chunk.source_page else none }
    text_node :: (imageNodesOf sha4 md.file_name node_id chunk_images image_counter
      ++ extractNodesGo sha4 rest t' (image_counter + chunk_images.length))

/-- Node Builder `extract_nodes` (chunker.py lines 612-691). -/
def extract_nodes (chunks : List Chunk) (file_sha256 : Option PyStr)
    (user : Option PyStr) (source_mime : Option String) : NodesDoc :=
  let sha4 := sha4Of file_sha256
  let nodes := extractNodesGo sha4 chunks 0 0
  { file_sha256 := file_sha256
    user := user
    source_mime := source_mime
    total_nodes := nodes.length
    nodes := nodes }

/-- Image-node ids of the nodes in `ns` whose relationships parent pointer
equals `tid` (in list order). -/
def childIds (ns : List Node) (tid : PyStr) : List PyStr :=
  ns.filterMap fun n =>
    match n with
    | .image i _ _ p => if p = tid then some i else none
    | .text _ _ _ => none

/-- Number of text nodes in `ns` whose id equals `tid`. -/
def textCount (ns : List Node) (tid : PyStr) : Nat :=
  ns.countP fun n =>
    match n with
    | .text i _ _ => decide (i = tid)
    | .image _ _ _ _ => false

/-- Project a text node's id. -/
def textIdOf : Node → Option PyStr
  | .text i _ _ => some i
  | .image _ _ _ _ => none

/-- Project an image node's id. -/
def imageIdOf : Node → Option PyStr
  | .image i _ _ _ => some i
  | .text _ _ _ => none

/-- Images attached to the chunks, in traversal order (the order in which
`extract_nodes` consumes them). -/
def allImagesOf (chunks : List Chunk) : List Image :=
  chunks.flatMap fun c => (c.metadata.getD {}).images

/-- Modelled from the spec: the sentence "emit one text node whose id encodes
the chunk's page and a per-page running text-sequence counter" describes a
variant of `extract_nodes` whose text counter restarts for each page.  It is
used only to exhibit that the code's single global `text_counter` differs
from that description. -/
def perPageTextIds (sha4 : PyStr) : List Chunk → (Nat → Nat) → List PyStr
  | [], _ => []
  | chunk :: rest, counts =>
    let c := counts chunk.source_page + 1
    txtId sha4 chunk.source_page c
      :: perPageTextIds sha4 rest (fun p => if p = chunk.source_page then c else counts p)

/-- Value of a little-endian digit list (decoder used only in proofs). -/
def ofLE (l : List Nat) : Nat := l.foldr (fun d acc => d + 10 * acc) 0

/-- Numeric value of a decimal digit character (decoder used only in proofs). -/
def charVal (c : Char) : Nat := c.toNat - 48

/-- Decode a big-endian decimal character string (decoder used only in proofs). -/
def decodeStr (s : PyStr) : Nat := ofLE (s.map charVal).reverse

/-- Characters of `s` after its last underscore, reversed (used to recover the
sequence counter from a node id). -/
def afterLastSep (s : PyStr) : PyStr := s.reverse.takeWhile (fun c => c != '_')

/-- Python `s.count(pat)` / `len(re.findall(pat, s))` for a literal, nonempty
pattern: number of non-overlapping occurrences, scanning left to right.  Fuel
(`s.length`) makes the recursion structural. -/
def countOccGo (pat : PyStr) : Nat → PyStr → Nat
  | 0, _ => 0
  | fuel + 1, s =>
    match s with
    | [] => 0
    | _ :: rest =>
      if pat.isPrefixOf s then 1 + countOccGo pat fuel (s.drop pat.length)
      else countOccGo pat fuel rest

/-- Count of non-overlapping occurrences of `pat` in `s`. -/
def pyCount (s pat : PyStr) : Nat := countOccGo pat s.length s

/-- The literal image placeholder marker `<!-- image -->` of
`_extract_images_for_chunk`. -/
def imageMarker : PyStr := "<!-- image -->".toList

/-- Python `str.isupper()` (ASCII approximation: at least one letter and no
lowercase letter). -/
def pyIsUpper (s : PyStr) : Bool := s.any Char.isAlpha && s.all (fun c => !c.isLower)

/-- Python no-argument `str.split()`: split on whitespace runs, dropping
empties; `cur` accumulates the current word reversed. -/
def wordsGo (cur : PyStr) : PyStr → List PyStr
  | [] => if cur = [] then [] else [cur.reverse]
  | c :: rest =>
    if pyIsSpace c then
      if cur = [] then wordsGo [] rest else cur.reverse :: wordsGo [] rest
    else wordsGo (c :: cur) rest

/-- Python `s.split()`. -/
def pySplitWs (s : PyStr) : List PyStr := wordsGo [] s

/-- Python `s.find(" ")`: index of the first space, `-1` when absent. -/
def pyFindSpace : PyStr → Nat → Int
  | [], _ => -1
  | c :: rest, i => if c = ' ' then (i : Int) else pyFindSpace rest (i + 1)

/-- Characters the regex `[.!?]+` of `_split_into_sentences` matches. -/
def isSentencePunct (c : Char) : Bool := c = '.' || c = '!' || c = '?'

/-- Splitting semantics of `re.split(r"[.!?]+(?:\s|$)", text)`: a maximal run
of sentence punctuation followed by one whitespace character (consumed) or by
the end of the string is a separator; a run followed by anything else belongs
to the surrounding piece (greedy backtracking never helps, since every
shorter run is followed by another punctuation character).  `piece` and `run`
accumulate reversed. -/
def reSplitSentences (piece run : PyStr) : PyStr → List PyStr
  | [] => if run = [] then [piece.reverse] else [piece.reverse, []]
  | c :: rest =>
    if isSentencePunct c then reSplitSentences piece (c :: run) rest
    else if run ≠ [] then
      if pyIsSpace c then piece.reverse :: reSplitSentences [] [] rest
      else reSplitSentences (c :: (run ++ piece)) [] rest
    else reSplitSentences (c :: piece) [] rest

/-- `DocumentChunker._split_into_sentences` (chunker.py lines 496-509). -/
def split_into_sentences (text : PyStr) : List PyStr :=
  let sentences := ((reSplitSentences [] [] text).map pyStrip).filter (fun s => !s.isEmpty)
  let sentences :=
    if sentences.length ≤ 1 then
      ((List.splitOn '\n' text).map pyStrip).filter (fun s => !s.isEmpty)
    else sentences
  if sentences.length ≤ 1 then
    (List.splitOn '.' text).filterMap (fun s =>
      let s' := pyStrip s
      if s' = [] then none else some (s' ++ ['.']))
  else sentences

/-- `DocumentChunker._has_markdown_tables` (chunker.py lines 43-57). -/
def has_markdown_tables (text : PyStr) : Bool :=
  if text = [] then false
  else
    let lines := List.splitOn '\n' text
    let table_indicators := lines.countP (fun line =>
      let l := pyStrip line
      if 2 ≤ l.countP (fun c => c = '|') then true
      else l ≠ [] && l.all (fun c => pyIsSpace c || c = '-' || c = '|' || c = ':')
        && l.contains '|')
    2 ≤ table_indicators

/-- Extension-to-MIME mapping of `_determine_file_type`. -/
def mime_mapping (ext : PyStr) : String :=
  if ext = "pdf".toList then "application/pdf"
  else if ext = "docx".toList then "application/docx"
  else if ext = "xlsx".toList then "application/xlsx"
  else if ext = "pptx".toList then "application/pptx"
  else if ext = "md".toList then "text/markdown"
  else if ext = "markdown".toList then "text/markdown"
  else if ext = "html".toList then "text/html"
  else if ext = "htm".toList then "text/html"
  else if ext = "txt".toList then "text/plain"
  else if ext = "csv".toList then "text/csv"
  else if ext = "png".toList then "image/png"
  else if ext = "jpg".toList then "image/jpeg"
  else if ext = "jpeg".toList then "image/jpeg"
  else if ext = "tiff".toList then "image/tiff"
  else if ext = "tif".toList then "image/tiff"
  else if ext = "bmp".toList then "image/bmp"
  else if ext = "webp".toList then "image/webp"
  else "application/octet-stream"

/-- `DocumentChunker._determine_file_type` (chunker.py lines 60-86);
`Char.toLower` stands in for Python's Unicode `str.lower()`. -/
def determine_file_type (file_name : PyStr) : String :=
  if file_name = [] || file_name = "unknown".toList then "application/octet-stream"
  else
    let ext :=
      if file_name.contains '.' then
        ((List.splitOn '.' (file_name.map Char.toLower)).getLast?).getD []
      else []
    mime_mapping ext

/-- Page record of the legacy `content["pages"]` structure. -/
structure PageRec where
  page : Nat := 1
  text : PyStr := []
deriving DecidableEq, Repr

/-- The `content` dict a docling result carries (`markdown` is `some` exactly
when the key is present; `tables` entries are only ever counted). -/
structure Content where
  markdown : Option PyStr := none
  images : List Image := []
  tables : List Unit := []
  pages : List PageRec := []
deriving DecidableEq, Repr

/-- Docling result dict consumed by the chunker: `content` plus
`metadata.get("file_name", "unknown")` modelled as an optional name. -/
structure DoclingResult where
  content : Content := {}
  file_name : Option PyStr := none
deriving DecidableEq, Repr

/-- `DocumentChunker._analyze_document_complexity` (chunker.py lines 23-40). -/
def analyze_document_complexity (content : Content) : Bool × List String :=
  let has_images := decide (0 < content.images.length)
  let has_tables := decide (0 < content.tables.length)
  let has_md_tables := has_markdown_tables (content.markdown.getD [])
  (has_images || has_tables || has_md_tables,
    if has_images then ["text", "images"] else ["text"])

/-- `DocumentChunker._create_chunk_metadata` (chunker.py lines 89-125).  The
`modality` parameter is accepted (as in the source) but the stored modality is
recomputed from the chunk's own images; `has_tables` mirrors
`kwargs.get("has_tables", False)`; absent kwargs keys are `none`. -/
def create_chunk_metadata (file_type : String) (file_name : PyStr)
    (images : List Image) (document_complex : Bool) (modality : List String)
    (has_tables : Bool) (has_caption has_ocr_text primary_image : Option Bool) :
    ChunkMetadata :=
  let _ := modality
  { source_type := file_type
    file_name := file_name
    images := images
    image_count := images.length
    chunk_complex := decide (0 < images.length) || has_tables
    document_complex := document_complex
    modality := if 0 < images.length then ["text", "images"] else ["text"]
    has_tables := has_tables
    has_caption := has_caption
    has_ocr_text := has_ocr_text
    primary_image := primary_image }

/-- `DocumentChunker._create_chunk` (chunker.py lines 128-144). -/
def create_chunk (content : PyStr) (chunk_id : PyStr) (source_page : Nat)
    (char_start char_end : Nat) (metadata_params : Option ChunkMetadata) : Chunk :=
  { content := pyStrip content
    chunk_id := chunk_id
    source_page := source_page
    char_start := char_start
    char_end := char_end
    metadata := some (metadata_params.getD {}) }

/-- Python-dict insertion for the image lookup: an existing key is updated in
place, a new key is appended. -/
def dictInsert (d : List (PyStr × Image)) (k : PyStr) (v : Image) :
    List (PyStr × Image) :=
  if d.any (fun kv => kv.1 = k) then d.map (fun kv => if kv.1 = k then (k, v) else kv)
  else d ++ [(k, v)]

/-- Lookup-dict construction `{img.get("image_id", f"img_{i}"): img ...}`
(chunker.py lines 162-164 and 526-528). -/
def buildImageLookupGo : List Image → Nat → List (PyStr × Image) → List (PyStr × Image)
  | [], _, d => d
  | img :: rest, i, d =>
    buildImageLookupGo rest (i + 1)
      (dictInsert d (img.image_id.getD ('i' :: 'm' :: 'g' :: '_' :: decChars i)) img)

/-- Image lookup dict for a document's images. -/
def build_image_lookup (images : List Image) : List (PyStr × Image) :=
  buildImageLookupGo images 0 []

/-- Number of binary digits of `n` (fuel-driven for kernel reduction). -/
def bitLenGo : Nat → Nat → Nat
  | 0, _ => 0
  | fuel + 1, n => if n = 0 then 0 else 1 + bitLenGo fuel (n / 2)

/-- Number of binary digits of `n`. -/
def bitLen (n : Nat) : Nat := bitLenGo n n

/-- Round the dyadic rational `num / 2^k` to the nearest IEEE-754 double
(53-bit mantissa, ties to even), returned as a pair `(q, s)` whose value is
`q * 2^s / 2^k`. -/
def roundMant (num : Nat) : Nat × Nat :=
  let e := bitLen num
  if e ≤ 53 then (num, 0)
  else
    let s := e - 53
    let q := num / 2 ^ s
    let r := num % 2 ^ s
    let half := 2 ^ (s - 1)
    if half < r ∨ (r = half ∧ q % 2 = 1) then (q + 1, s) else (q, s)

/-- Decide the Python comparison `m >= float(num / 2^k)` where the right-hand
side is the IEEE-754 double product (so `num/2^k` is first rounded to the
nearest double, then compared exactly against the integer `m`). -/
def floatLeInt (m num k : Nat) : Bool :=
  let qs := roundMant num
  decide (qs.1 * 2 ^ qs.2 ≤ m * 2 ^ k)

/-- Caption / OCR similarity test for one image against one chunk
(chunker.py lines 298-328).  The float thresholds `0.7` and `0.8` are the
IEEE-754 doubles `6305039478318694/2^53` and `3602879701896397/2^52`; the
Python comparison `matching_words >= len(words) * threshold` first rounds the
float product to the nearest double and then compares it exactly against the
integer, which `floatLeInt` reproduces. -/
def imageSimilarityMatch (text_chunk : PyStr) (image : Image) : Bool :=
  let caption := pyStrip image.caption
  let ocr_text := pyStrip image.ocr_text
  if caption ≠ [] && 10 < caption.length then
    let caption_words := (pySplitWs (caption.map Char.toLower)).filter (fun w => 3 < w.length)
    let chunk_lower := text_chunk.map Char.toLower
    if caption_words ≠ [] && 2 < caption_words.length then
      let matching_words := caption_words.countP (fun w => pyContains chunk_lower w)
      floatLeInt matching_words (caption_words.length * 6305039478318694) 53
    else false
  else if ocr_text ≠ [] && 20 < ocr_text.length then
    let ocr_words := (pySplitWs (ocr_text.map Char.toLower)).filter (fun w => 4 < w.length)
    let chunk_lower := text_chunk.map Char.toLower
    if ocr_words ≠ [] && 3 < ocr_words.length then
      let matching_words := ocr_words.countP (fun w => pyContains chunk_lower w)
      floatLeInt matching_words (ocr_words.length * 3602879701896397) 52
    else false
  else false

/-- Similarity fallback scan of `_extract_images_for_chunk`: first matching
image wins and the scan stops (`break`). -/
def similarityScanGo (text_chunk : PyStr) : List Image → List Image
  | [] => []
  | img :: rest =>
    if imageSimilarityMatch text_chunk img then [img]
    else similarityScanGo text_chunk rest

/-- `DocumentChunker._extract_images_for_chunk` (chunker.py lines 284-330). -/
def extract_images_for_chunk (text_chunk : PyStr)
    (image_lookup : List (PyStr × Image)) : List Image :=
  let image_markers := pyCount text_chunk imageMarker
  if 0 < image_markers then (image_lookup.map Prod.snd).take image_markers
  else similarityScanGo text_chunk (image_lookup.map Prod.snd)

/-- Markdown-header test `^#{1,6}\s+.+` on a stripped line. -/
def mdHeaderMatch (l : PyStr) : Bool :=
  let k := (l.takeWhile (fun c => c = '#')).length
  1 ≤ k && k ≤ 6 &&
    (match l.drop k with
     | c :: cs => pyIsSpace c && cs ≠ []
     | [] => false)

/-- Prefix-match test `^[A-Z][^.]*[:\(]` on a line. -/
def capColonMatch (l : PyStr) : Bool :=
  match l with
  | c :: rest =>
    ('A' ≤ c && c ≤ 'Z')
      && (rest.takeWhile (fun x => x ≠ '.')).any (fun x => x = ':' || x = '(')
  | [] => false

/-- Header detection of `_split_by_headers` (chunker.py lines 341-354),
applied to the stripped line. -/
def isHeaderLine (l : PyStr) : Bool :=
  mdHeaderMatch l ||
    (l ≠ [] && l.length < 100
      && !(l.getLast? = some '.') && !(l.getLast? = some ',')
      && !(l.head? = some '-') && !(l.head? = some '*')
      && (pyIsUpper l || capColonMatch l
            || ("## ".toList.isPrefixOf l && 4 ≤ l.length)))

/-- Section accumulation loop of `_split_by_headers`. -/
def splitByHeadersGo : List PyStr → List PyStr → List (List PyStr) → List (List PyStr)
  | [], current, acc => if current ≠ [] then acc ++ [current] else acc
  | line :: rest, current, acc =>
    if isHeaderLine (pyStrip line) then
      if current ≠ [] then splitByHeadersGo rest [line] (acc ++ [current])
      else splitByHeadersGo rest [line] acc
    else splitByHeadersGo rest (current ++ [line]) acc

/-- `DocumentChunker._split_by_headers` (chunker.py lines 333-373). -/
def split_by_headers (text : PyStr) : List PyStr :=
  let sections := (splitByHeadersGo (List.splitOn '\n' text) [] []).map
    (List.intercalate ['\n'])
  sections.filterMap (fun sec =>
    let section_clean := pyStrip sec
    if 50 < section_clean.length && !("<!--".toList.isPrefixOf section_clean) then
      some section_clean
    else none)

/-- Chunk-id formatting of `_split_text_into_chunks`
(`chunk_{prefix}_{page}_{count}` or `chunk_{page}_{count}`). -/
def chunkIdOf (chunkPrefix : PyStr) (page_num chunk_count : Nat) : PyStr :=
  if chunkPrefix ≠ [] then
    "chunk_".toList ++ chunkPrefix ++ '_' :: decChars page_num ++ '_' :: decChars chunk_count
  else "chunk_".toList ++ decChars page_num ++ '_' :: decChars chunk_count

/-- Chunk construction shared by the close- and flush-sites of
`_split_text_into_chunks` (lines 403-433 and 460-491). -/
def makeSplitChunk (file_type : String) (file_name chunkPrefix : PyStr)
    (image_lookup : List (PyStr × Image)) (document_complex : Bool)
    (modality : List String) (page_num : Nat) (current_chunk : PyStr)
    (current_start chunk_count : Nat) : Chunk :=
  let chunk_images :=
    if image_lookup ≠ [] then extract_images_for_chunk current_chunk image_lookup else []
  let has_tables := has_markdown_tables current_chunk
  let metadata := create_chunk_metadata file_type file_name chunk_images document_complex
    modality has_tables none none none
  create_chunk current_chunk (chunkIdOf chunkPrefix page_num chunk_count) page_num
    current_start (current_start + current_chunk.length) (some metadata)

/-- Overlap-text computation at a chunk close (chunker.py lines 436-445). -/
def overlapTextOf (overlap : Nat) (current_chunk : PyStr) : PyStr :=
  if overlap < current_chunk.length then
    let overlap_candidate := current_chunk.drop (current_chunk.length - overlap)
    let space_pos := pyFindSpace overlap_candidate 0
    if 0 < space_pos then pyStrip (overlap_candidate.drop space_pos.toNat)
    else pyStrip overlap_candidate
  else current_chunk

/-- Sentence-accumulation loop of `_split_text_into_chunks` (lines 400-491),
including the final flush. -/
def splitLoopGo (chunk_size overlap : Nat) (file_type : String)
    (file_name chunkPrefix : PyStr) (image_lookup : List (PyStr × Image))
    (document_complex : Bool) (modality : List String) (page_num : Nat) :
    List PyStr → PyStr → Nat → Nat → List Chunk
  | [], current_chunk, current_start, chunk_count =>
    if pyStrip current_chunk ≠ [] then
      [makeSplitChunk file_type file_name chunkPrefix image_lookup document_complex
        modality page_num current_chunk current_start chunk_count]
    else []
  | sentence :: rest, current_chunk, current_start, chunk_count =>
    if chunk_size < current_chunk.length + sentence.length ∧ current_chunk ≠ [] then
      let chunk := makeSplitChunk file_type file_name chunkPrefix image_lookup
        document_complex modality page_num current_chunk current_start chunk_count
      let overlap_text := overlapTextOf overlap current_chunk
      let new_chunk := if overlap_text ≠ [] then overlap_text ++ ' ' :: sentence else sentence
      let new_start :=
        if overlap_text ≠ [] then current_start + new_chunk.length - overlap_text.length
        else current_start + new_chunk.length
      chunk :: splitLoopGo chunk_size overlap file_type file_name chunkPrefix image_lookup
        document_complex modality page_num rest new_chunk new_start (chunk_count + 1)
    else
      splitLoopGo chunk_size overlap file_type file_name chunkPrefix image_lookup
        document_complex modality page_num rest
        (if current_chunk ≠ [] then current_chunk ++ ' ' :: sentence else sentence)
        current_start chunk_count

/-- `DocumentChunker._split_text_into_chunks` (chunker.py lines 376-493). -/
def split_text_into_chunks (chunk_size overlap : Nat) (text : PyStr) (page_num : Nat)
    (file_type : String) (chunkPrefix : PyStr) (image_lookup : List (PyStr × Image))
    (document_complex : Bool) (modality : List String) (file_name : PyStr) : List Chunk :=
  let text := pyStrip text
  if text = [] then []
  else splitLoopGo chunk_size overlap file_type file_name chunkPrefix image_lookup
    document_complex modality page_num (split_into_sentences text) [] 0 0

/-- Header-section loop of `chunk_docling_result` (chunker.py lines 170-209):
small sections become one chunk (`chunk_h_0_1_{i}`), oversized ones are
re-split with prefix `h_{i}`; `current_pos` advances only for small sections,
as in the source. -/
def headerLoop (chunk_size overlap : Nat) (file_type : String) (file_name : PyStr)
    (image_lookup : List (PyStr × Image)) (document_complex : Bool)
    (modality : List String) : List PyStr → Nat → Nat → List Chunk
  | [], _, _ => []
  | header_chunk :: rest, i, current_pos =>
    let chunk_images := extract_images_for_chunk header_chunk image_lookup
    let has_tables := has_markdown_tables header_chunk
    if header_chunk.length ≤ chunk_size then
      let metadata := create_chunk_metadata file_type file_name chunk_images
        document_complex modality has_tables none none none
      create_chunk header_chunk ("chunk_h_0_1_".toList ++ decChars i) 1 current_pos
          (current_pos + header_chunk.length) (some metadata)
        :: headerLoop chunk_size overlap file_type file_name image_lookup document_complex
            modality rest (i + 1) (current_pos + header_chunk.length + 1)
    else
      split_text_into_chunks chunk_size overlap header_chunk 1 file_type
          ('h' :: '_' :: decChars i) image_lookup document_complex modality file_name
        ++ headerLoop chunk_size overlap file_type file_name image_lookup document_complex
            modality rest (i + 1) current_pos

/-- Dedicated image-content chunks of `chunk_docling_result`
(chunker.py lines 224-256): one chunk per image that carries a caption or OCR
text, positioned after the main text. -/
def imageChunksGo (file_type : String) (file_name : PyStr) (document_complex : Bool)
    (modality : List String) (markdown_len : Nat) : List Image → Nat → List Chunk
  | [], _ => []
  | image :: rest, i =>
    let parts :=
      (if image.caption ≠ [] then [("Image Caption: ".toList ++ image.caption)] else [])
        ++ (if image.ocr_text ≠ [] then [("Image Text (OCR): ".toList ++ image.ocr_text)] else [])
    if parts ≠ [] then
      let image_content := List.intercalate ['\n'] parts
      let metadata := create_chunk_metadata file_type file_name [image] document_complex
        modality false (some (image.caption ≠ [])) (some (image.ocr_text ≠ [])) (some true)
      let image_start_pos := markdown_len + i * 100
      create_chunk image_content ("chunk_img_0_1_".toList ++ decChars i) 1 image_start_pos
          (image_start_pos + image_content.length) (some metadata)
        :: imageChunksGo file_type file_name document_complex modality markdown_len rest (i + 1)
    else imageChunksGo file_type file_name document_complex modality markdown_len rest (i + 1)

/-- `DocumentChunker.chunk_docling_result` (chunker.py lines 147-281). -/
def chunk_docling_result (chunk_size overlap : Nat) (docling_result : DoclingResult) :
    List Chunk :=
  let content := docling_result.content
  let file_name := docling_result.file_name.getD "unknown".toList
  let file_type := determine_file_type file_name
  match content.markdown with
  | some markdown_text =>
    let images := content.images
    let dm := analyze_document_complexity content
    let image_lookup := build_image_lookup images
    let text_chunks :=
      if pyStrip markdown_text ≠ [] then
        let header_chunks := split_by_headers markdown_text
        if header_chunks ≠ [] then
          headerLoop chunk_size overlap file_type file_name image_lookup dm.1 dm.2
            header_chunks 0 0
        else
          split_text_into_chunks chunk_size overlap markdown_text 1 file_type []
            image_lookup dm.1 dm.2 file_name
      else []
    text_chunks
      ++ imageChunksGo file_type file_name dm.1 dm.2 markdown_text.length images 0
  | none =>
    content.pages.flatMap (fun page_data =>
      if pyStrip page_data.text ≠ [] then
        split_text_into_chunks chunk_size overlap page_data.text page_data.page file_type
          [] [] false ["text"] file_name
      else [])

/-- Dedicated image-content chunks of `chunk_docling_result_with_pages`
(chunker.py lines 553-585): like `imageChunksGo` but tagged with the image's
own page number and id `chunk_img_{page}_{i}`. -/
def imageChunksPagesGo (file_type : String) (file_name : PyStr) (document_complex : Bool)
    (modality : List String) : List Image → Nat → List Chunk
  | [], _ => []
  | image :: rest, i =>
    let parts :=
      (if image.caption ≠ [] then [("Image Caption: ".toList ++ image.caption)] else [])
        ++ (if image.ocr_text ≠ [] then [("Image Text (OCR): ".toList ++ image.ocr_text)] else [])
    if parts ≠ [] then
      let image_content := List.intercalate ['\n'] parts
      let image_page := image.page_number.getD 1
      let metadata := create_chunk_metadata file_type file_name [image] document_complex
        modality false (some (image.caption ≠ [])) (some (image.ocr_text ≠ [])) (some true)
      create_chunk image_content
          ("chunk_img_".toList ++ decChars image_page ++ '_' :: decChars i) image_page 0
          image_content.length (some metadata)
        :: imageChunksPagesGo file_type file_name document_complex modality rest (i + 1)
    else imageChunksPagesGo file_type file_name document_complex modality rest (i + 1)

/-- `DocumentChunker.chunk_docling_result_with_pages` (chunker.py lines
512-591); `page_markdown` is an insertion-ordered dict (`None` and `{}` are
both falsy, routing to the fallback). -/
def chunk_docling_result_with_pages (chunk_size overlap : Nat)
    (docling_result : DoclingResult) (page_markdown : Option (List (Nat × PyStr))) :
    List Chunk :=
  match page_markdown with
  | some pm =>
    if pm ≠ [] then
      let content := docling_result.content
      let file_name := docling_result.file_name.getD "unknown".toList
      let file_type := determine_file_type file_name
      let images := content.images
      let dm := analyze_document_complexity content
      let image_lookup := build_image_lookup images
      let page_chunks := pm.flatMap (fun pt =>
        if pyStrip pt.2 = [] then []
        else
          let page_number := pt.1 + 1
          split_text_into_chunks chunk_size overlap pt.2 page_number file_type
            ('p' :: decChars page_number) image_lookup dm.1 dm.2 file_name)
      page_chunks ++ imageChunksPagesGo file_type file_name dm.1 dm.2 images 0
    else chunk_docling_result chunk_size overlap docling_result
  | none => chunk_docling_result chunk_size overlap docling_result

/-- Concrete image on page 5, used by the C4 counterexample. -/
def c4Image : Image := { page_number := some 5 }

/-- Concrete docling result whose markdown is a single image placeholder and
whose only image sits on page 5, used by the C4 counterexample. -/
def c4Doc : DoclingResult :=
  { content := { markdown := some imageMarker, images := [c4Image] } }

/-!  Processor embedding (`src/ingestion/doc_processing/processor.py`).
Python dicts mapping page indices to markdown are insertion-ordered
association lists; the external conversion engine and the filesystem are
oracles carried by an `Env` record; wall-clock timing fields are modelled
as 0. -/

/-- Page-markdown dict: insertion-ordered association list. -/
abbrev PageDict := List (Nat × PyStr)

/-- Python-dict assignment `d[k] = v`: update in place, else append. -/
def dictSet (d : PageDict) (k : Nat) (v : PyStr) : PageDict :=
  if d.any (fun kv => kv.1 = k) then d.map (fun kv => if kv.1 = k then (k, v) else kv)
  else d ++ [(k, v)]

/-- The fixed textual page separator `PAGE_SEPARATOR = "\n---\n"`. -/
def PAGE_SEPARATOR : PyStr := "\n---\n".toList

/-- `ERROR_FALLBACK_CONTENT = "Error processing page"`. -/
def ERROR_FALLBACK_CONTENT : PyStr := "Error processing page".toList

/-- `merge_markdown_by_page` (processor.py lines 470-480): walk pages in
ascending order, keep stripped non-blank contents each followed by the
separator, join with newlines and strip the result. -/
def merge_markdown_by_page (page_markdown : PageDict) (total_pages : Nat) : PyStr :=
  let merged_content := (List.range total_pages).flatMap (fun page_num =>
    match List.lookup page_num page_markdown with
    | some raw =>
      let content := pyStrip raw
      if content ≠ [] then [content, PAGE_SEPARATOR] else []
    | none => [])
  pyStrip (List.intercalate ['\n'] merged_content)

/-- Provenance entry: `page_no` attribute present or absent. -/
structure ProvObj where
  page_no : Option Int := none
deriving DecidableEq, Repr

/-- A detected table (only its provenance is consulted; an absent or `None`
`prov` attribute is modelled as `[]`, which the source treats identically). -/
structure DocItem where
  prov : List ProvObj := []
deriving DecidableEq, Repr

/-- A detected picture: provenance plus the Base64 payload
`_convert_image_to_base64` manages to produce (`none` when every strategy
fails or raises, which that helper converts to `None`). -/
structure PictureObj where
  prov : List ProvObj := []
  asBase64 : Option PyStr := none
deriving DecidableEq, Repr

deriving instance DecidableEq for Except

/-- A page object of the conversion result: `export` is `none` when the page
has no `export_to_markdown` attribute, and otherwise the call's outcome
(`Except.error` when it raises). -/
structure PageObj where
  export_to_markdown : Option (Except PyStr PyStr) := none
deriving DecidableEq, Repr

/-- The document model a conversion result exposes (read-only capability):
`pages` is `none` when the attribute is missing. -/
structure DoclingDocument where
  pages : Option (List PageObj) := none
  tables : List DocItem := []
  pictures : List PictureObj := []
  export_markdown : PyStr := []
deriving DecidableEq, Repr

/-- A conversion result object; its `document` may be `None`. -/
structure ConvResult where
  document : Option DoclingDocument := none
deriving DecidableEq, Repr

/-- Image record built by `_create_image_metadata`. -/
structure ImageRec where
  image_id : PyStr
  page_number : Int
  base64 : PyStr
  format : String := "PNG"
deriving DecidableEq, Repr

/-- The oracle environment: filesystem facts and the conversion engine's
behavior on this run.  `extractPagesOk` is whether `extract_pages_to_memory`'s
fitz work succeeds (on failure the source catches and returns `[]`);
`complexConvertAll` is `convert_all(..., raises_on_error=False)` keyed by the
extracted page streams (here identified with their page numbers). -/
structure Env where
  file_exists : PyStr → Bool
  getsize : PyStr → Nat
  fitzPageCount : PyStr → Except PyStr Nat
  simpleConvert : PyStr → Except PyStr ConvResult
  extractPagesOk : PyStr → Bool
  complexConvertAll : List Nat → List ConvResult

/-- `_is_pdf_file` (processor.py lines 539-540). -/
def is_pdf_file (file_path : PyStr) : Bool :=
  ".pdf".toList.isSuffixOf (file_path.map Char.toLower)

/-- `os.path.basename` for POSIX paths. -/
def pyBasename (p : PyStr) : PyStr := (p.reverse.takeWhile (fun c => c != '/')).reverse

/-- `_create_fallback_page_content` (processor.py lines 72-77). -/
def create_fallback_page_content (page_nums : List Nat) (error_msg : PyStr) : PageDict :=
  page_nums.map (fun page_num =>
    (page_num, "# Page ".toList ++ decChars (page_num + 1) ++ "\n\n[".toList
      ++ error_msg ++ [']']))

/-- `_get_page_number_from_provenance` (processor.py lines 81-86): first
provenance entry carrying a `page_no`, else the default. -/
def get_page_number_from_provenance (prov_list : List ProvObj) (default : Int) : Int :=
  (prov_list.findSome? (fun p => p.page_no)).getD default

/-- Proportional page slice of the whole-document markdown
(processor.py lines 114-119 and 129-135). -/
def slicePage (full_markdown : PyStr) (total_pages i : Nat) : PyStr :=
  let lines := List.splitOn '\n' full_markdown
  let lines_per_page := max 1 (lines.length / total_pages)
  let start_idx := i * lines_per_page
  let end_idx := min ((i + 1) * lines_per_page) lines.length
  List.intercalate ['\n'] ((lines.take end_idx).drop start_idx)

/-- Per-page content selection of `_extract_page_markdown_from_result` for a
page whose own export returned `raw` without raising (lines 107-124). -/
def pageContentOf (full_markdown : PyStr) (total_pages i : Nat) (raw : PyStr) : PyStr :=
  if pyStrip raw = [] then
    let c2 := if pyStrip full_markdown ≠ [] then pyStrip (slicePage full_markdown total_pages i)
      else raw
    if pyStrip c2 = [] then [] else c2
  else raw

/-- `_extract_page_markdown_from_result` (processor.py lines 90-140).  When
`total_pages = 0` and the per-page export path is not taken, the Python code
raises a `ZeroDivisionError` that the caller's `try` degrades to the same
empty dict this model produces (Lean's `/ 0 = 0` path yields `range 0 = []`
entries either way). -/
def extract_page_markdown_from_result (docling_result : Option ConvResult)
    (total_pages : Nat) (mode_name : PyStr) : PageDict :=
  let failFull := create_fallback_page_content (List.range total_pages)
    ("Error: ".toList ++ mode_name ++ " processing failed".toList)
  match docling_result with
  | none => failFull
  | some r =>
    match r.document with
    | none => failFull
    | some document =>
      let full_markdown := document.export_markdown
      let elseSlice := (List.range total_pages).map (fun i =>
        let c := slicePage full_markdown total_pages i
        (i, if pyStrip c = [] then [] else c))
      match document.pages with
      | some pages =>
        if pages ≠ [] then
          (pages.enumFrom 0).map (fun ip =>
            match ip.2.export_to_markdown with
            | some (.error _) =>
              (ip.1, "# Page ".toList ++ decChars (ip.1 + 1) ++ "\n\n[".toList
                ++ ERROR_FALLBACK_CONTENT ++ [']'])
            | some (.ok c) => (ip.1, pageContentOf full_markdown total_pages ip.1 c)
            | none => (ip.1, pageContentOf full_markdown total_pages ip.1 []))
        else elseSlice
      | none => elseSlice

/-- `process_document_easy_mode` (processor.py lines 338-357): the fitz page
count is taken before the `try`, so its failure propagates; a conversion
failure degrades to fallback page stubs. -/
def process_document_easy_mode (env : Env) (file_path : PyStr) :
    Except PyStr (Option ConvResult × PageDict × Nat) :=
  match env.fitzPageCount file_path with
  | .error e => .error e
  | .ok total_pages =>
    match env.simpleConvert file_path with
    | .ok result =>
      .ok (some result, extract_page_markdown_from_result (some result) total_pages
        "easy".toList, total_pages)
    | .error _ =>
      .ok (none, create_fallback_page_content (List.range total_pages)
        "Error: Easy mode processing failed".toList, total_pages)

/-- Label upgrade applied per detected table (processor.py lines 232-235). -/
def upgradeTable (label : String) : String :=
  if label = "simple" then "table" else if label = "image" then "table+image" else label

/-- Label upgrade applied per detected picture (processor.py lines 244-247). -/
def upgradePicture (label : String) : String :=
  if label = "simple" then "image" else if label = "table" then "table+image" else label

/-- Page-index clamp `max(0, min(page_num - 1, total_pages - 1))`
(processor.py lines 231, 243). -/
def pageIdxOf (total_pages : Nat) (page_num : Int) : Nat :=
  (max 0 (min (page_num - 1) ((total_pages : Int) - 1))).toNat

/-- One discovery pass of `analyze_and_triage_pages`: upgrade the label of
each item's clamped page.  `List.set` out of range is a no-op, which is
extensionally the source's behavior: the only out-of-range case is
`total_pages = 0`, where the Python `IndexError` is caught and the label
list reset to the same empty list. -/
def applyItems (upgrade : String → String) (total_pages : Nat)
    (items : List (List ProvObj)) (labels : List String) : List String :=
  items.foldl (fun ls prov =>
    let page_num := get_page_number_from_provenance prov 1
    let page_idx := pageIdxOf total_pages page_num
    ls.set page_idx (upgrade (ls.getD page_idx "simple"))) labels

/-- `analyze_and_triage_pages` (processor.py lines 209-263): label every page
`simple`, scan tables then pictures, then partition pages by label. -/
def analyze_and_triage_pages (docling_result : Option ConvResult) (total_pages : Nat) :
    List Nat × List Nat × List String :=
  let complexity_info :=
    match docling_result with
    | none => List.replicate total_pages "simple"
    | some r =>
      match r.document with
      | none => List.replicate total_pages "simple"
      | some document =>
        applyItems upgradePicture total_pages (document.pictures.map (fun p => p.prov))
          (applyItems upgradeTable total_pages (document.tables.map (fun t => t.prov))
            (List.replicate total_pages "simple"))
  let simple_pages := (List.range total_pages).filter
    (fun p => complexity_info.getD p "simple" = "simple")
  let complex_pages := (List.range total_pages).filter
    (fun p => complexity_info.getD p "simple" ≠ "simple")
  (simple_pages, complex_pages, complexity_info)

/-- The same triage with the two discovery passes exchanged (pictures scanned
before tables), used to state C8's order-independence. -/
def analyze_and_triage_pages_swapped (docling_result : Option ConvResult)
    (total_pages : Nat) : List Nat × List Nat × List String :=
  let complexity_info :=
    match docling_result with
    | none => List.replicate total_pages "simple"
    | some r =>
      match r.document with
      | none => List.replicate total_pages "simple"
      | some document =>
        applyItems upgradeTable total_pages (document.tables.map (fun t => t.prov))
          (applyItems upgradePicture total_pages (document.pictures.map (fun p => p.prov))
            (List.replicate total_pages "simple"))
  let simple_pages := (List.range total_pages).filter
    (fun p => complexity_info.getD p "simple" = "simple")
  let complex_pages := (List.range total_pages).filter
    (fun p => complexity_info.getD p "simple" ≠ "simple")
  (simple_pages, complex_pages, complexity_info)

/-- `extract_pages_to_memory` (processor.py lines 267-300): requested pages
below the source's page count, paired with their single-page streams
(identified here by page number); any fitz failure is caught and yields `[]`. -/
def extract_pages_to_memory (env : Env) (file_path : PyStr) (page_numbers : List Nat) :
    List (Nat × Nat) :=
  if env.extractPagesOk file_path then
    match env.fitzPageCount file_path with
    | .ok n => (page_numbers.filter (fun p => p < n)).map (fun p => (p, p))
    | .error _ => []
  else []

/-- Image extraction loop of `extract_images_from_result` /
`_extract_single_image` (processor.py lines 184-205, 313-334): per picture,
resolve the page from provenance relative to `page_offset` and keep it only
when a Base64 payload was produced; `count` is the number of successes so
far (`len(images) + 1` is the id index). -/
def extractImagesGo (page_offset : Int) : List PictureObj → Nat → List ImageRec
  | [], _ => []
  | pic :: rest, count =>
    let page_num :=
      if pic.prov ≠ [] then
        get_page_number_from_provenance pic.prov page_offset + page_offset - 1
      else page_offset
    match pic.asBase64 with
    | some b64 =>
      { image_id := "image_".toList ++ decChars (count + 1), page_number := page_num,
        base64 := b64 }
        :: extractImagesGo page_offset rest (count + 1)
    | none => extractImagesGo page_offset rest count

/-- `extract_images_from_result` (processor.py lines 313-334). -/
def extract_images_from_result (docling_result : ConvResult) (page_offset : Int) :
    List ImageRec :=
  match docling_result.document with
  | none => []
  | some document => extractImagesGo page_offset document.pictures 0

/-- `process_complex_pages` (processor.py lines 361-415). -/
def process_complex_pages (env : Env) (file_path : PyStr) (page_numbers : List Nat) :
    PageDict × List ImageRec :=
  if page_numbers = [] then ([], [])
  else
    let page_streams := extract_pages_to_memory env file_path page_numbers
    if page_streams = [] then
      (create_fallback_page_content page_numbers "Error: Failed to extract page".toList, [])
    else
      let conv_results := env.complexConvertAll (page_streams.map Prod.snd)
      let entries := (page_streams.enumFrom 0).map (fun ips =>
        match conv_results[ips.1]? with
        | some r =>
          match r.document with
          | some doc =>
            let markdown := doc.export_markdown
            ((ips.2.1, if pyStrip markdown ≠ [] then markdown else []),
              extract_images_from_result r ((ips.2.1 : Int) + 1))
          | none =>
            ((ips.2.1, "# Page ".toList ++ decChars (ips.2.1 + 1) ++ "\n\n".toList
              ++ ERROR_FALLBACK_CONTENT ++ ['\n']), [])
        | none =>
          ((ips.2.1, "# Page ".toList ++ decChars (ips.2.1 + 1) ++ "\n\n".toList
            ++ ERROR_FALLBACK_CONTENT ++ ['\n']), []))
      (entries.map (fun e => e.1), entries.flatMap (fun e => e.2))

/-- `_merge_processing_results` (processor.py lines 419-431). -/
def merge_processing_results (easy_results complex_results : PageDict)
    (complex_pages : List Nat) : PageDict :=
  complex_pages.foldl (fun acc page_num =>
    match List.lookup page_num complex_results with
    | some v => dictSet acc page_num v
    | none => acc) easy_results

/-- Metadata block of a processing result (timing fields modelled as 0). -/
structure ProcMetadata where
  page_count : Nat
  fast_pages : Nat
  complex_pages : Nat
  images_found : Nat
  tables_found : Nat
  total_text_length : Nat
deriving DecidableEq, Repr

/-- The `content` part of a processing result (`page_markdown` is present
only for the adaptive PDF path). -/
structure ProcContent where
  markdown : PyStr
  page_markdown : Option PageDict := none
  images : List ImageRec
  tables : List PyStr
  metadata : ProcMetadata
deriving DecidableEq, Repr

/-- The result dict `process_document` returns on success. -/
structure ProcResult where
  content : ProcContent
  file_name : PyStr
  file_size : Nat
deriving DecidableEq, Repr

/-- `_generate_processing_metadata` (processor.py lines 435-466). -/
def generate_processing_metadata (simple_pages complex_pages : List Nat)
    (images : List ImageRec) (markdown : PyStr) (complex_results : PageDict) :
    ProcMetadata × List PyStr :=
  let table_count := (complex_results.map (fun kv => pyCount kv.2 "| ".toList)).sum
  let tables :=
    if 0 < table_count then
      (List.range' 1 (min (table_count / 10) 10)).map
        (fun i => "table_".toList ++ decChars i)
    else []
  ({ page_count := simple_pages.length + complex_pages.length
     fast_pages := simple_pages.length
     complex_pages := complex_pages.length
     images_found := images.length
     tables_found := tables.length
     total_text_length := markdown.length }, tables)

/-- `process_non_pdf_document` (processor.py lines 484-535): the whole body
is wrapped in a `try` whose handler returns `None`; a conversion result
without a document also returns `None`. -/
def process_non_pdf_document (env : Env) (file_path : PyStr) : Option ProcResult :=
  match env.simpleConvert file_path with
  | .error _ => none
  | .ok result =>
    match result.document with
    | none => none
    | some document =>
      let markdown_content := document.export_markdown
      let images := extract_images_from_result result 1
      some
        { content :=
            { markdown := markdown_content
              page_markdown := none
              images := images
              tables := []
              metadata :=
                { page_count := 1, fast_pages := 1, complex_pages := 0,
                  images_found := images.length, tables_found := 0,
                  total_text_length := markdown_content.length } }
          file_name := pyBasename file_path
          file_size := env.getsize file_path }

/-- The body of `process_document`'s `try` block (processor.py lines
550-629); an `Except.error` is an exception reaching the outer handler. -/
def processDocumentBody (env : Env) (file_path : PyStr) :
    Except PyStr (Option ProcResult) :=
  if is_pdf_file file_path then
    match process_document_easy_mode env file_path with
    | .error e => .error e
    | .ok (easy_result, easy_page_markdown, total_pages) =>
      let triage := analyze_and_triage_pages easy_result total_pages
      let simple_pages := triage.1
      let complex_pages := triage.2.1
      let cr :=
        if complex_pages ≠ [] then process_complex_pages env file_path complex_pages
        else ([], [])
      let complex_results := cr.1
      let all_images := cr.2
      let final_page_markdown :=
        merge_processing_results easy_page_markdown complex_results complex_pages
      let merged_markdown := merge_markdown_by_page final_page_markdown total_pages
      let mt := generate_processing_metadata simple_pages complex_pages all_images
        merged_markdown complex_results
      .ok (some
        { content :=
            { markdown := merged_markdown
              page_markdown := some final_page_markdown
              images := all_images
              tables := mt.2
              metadata := mt.1 }
          file_name := pyBasename file_path
          file_size := env.getsize file_path })
  else .ok (process_non_pdf_document env file_path)

/-- `process_document` (processor.py lines 544-632): missing input returns
`None`; everything else runs under a catch-all handler that converts any
escaped exception to `None`. -/
def process_document (env : Env) (file_path : PyStr) : Except PyStr (Option ProcResult) :=
  if env.file_exists file_path = false then Except.ok none
  else
    match processDocumentBody env file_path with
    | .ok v => Except.ok v
    | .error _ => Except.ok none

/-- Concrete environment for the C6 counterexample: the file exists, is not a
PDF, and conversion succeeds but returns no document. -/
def c6Env : Env :=
  { file_exists := fun _ => true
    getsize := fun _ => 0
    fitzPageCount := fun _ => .ok 0
    simpleConvert := fun _ => .ok { document := none }
    extractPagesOk := fun _ => true
    complexConvertAll := fun _ => [] }

/-- Document with a table and a picture both resolving to page 2, used by
the C8 witness. -/
def c8Doc : ConvResult :=
  { document := some
      { tables := [{ prov := [{ page_no := some 2 }] }]
        pictures := [{ prov := [{ page_no := some 2 }] }] } }

/-- Space-joined concatenation, the shape `current_chunk` accumulates in
`_split_text_into_chunks` (`current_chunk += " " + sentence`). -/
def joinSp : List PyStr → PyStr
  | [] => []
  | [s] => s
  | s :: rest => s ++ ' ' :: joinSp rest

/-- The first character, when present, is not whitespace. -/
def headNotWs (s : PyStr) : Prop := ∀ c, s.head? = some c → pyIsSpace c = false

/-- The last character, when present, is not whitespace. -/
def lastNotWs (s : PyStr) : Prop := ∀ c, s.getLast? = some c → pyIsSpace c = false

/-- A non-empty string with non-whitespace edges (every sentence
`_split_into_sentences` returns has this shape). -/
def goodToken (s : PyStr) : Prop := s ≠ [] ∧ headNotWs s ∧ lastNotWs s

/-- What C7 asserts of a produced chunk: its content is an overlap seed of at
most `overlap` characters followed by a space-joined run of consecutive whole
sentences (so boundaries never cut the new content mid-sentence), and its
length is at most `chunkSize` plus the length of its trailing sentence. -/
def sentenceAligned (sentences : List PyStr) (chunkSize overlap : Nat) (c : Chunk) : Prop :=
  ∃ ov ss, ss ≠ [] ∧ ss <:+: sentences
    ∧ c.content = (if ov = [] then joinSp ss else ov ++ ' ' :: joinSp ss)
    ∧ ov.length ≤ overlap
    ∧ ∃ s, ss.getLast? = some s ∧ s ∈ sentences ∧ c.content.length ≤ chunkSize + s.length

/-- Loop invariant of `splitLoopGo` relating the accumulator `cur` to the
sentences already consumed (`done`), at the claim's parameters
`chunk_size = 1000`, `overlap = 200`. -/
def curInv (done : List PyStr) (cur : PyStr) : Prop :=
  cur = [] ∨
    ∃ ov ss, ss ≠ [] ∧ ss <:+ done
      ∧ cur = (if ov = [] then joinSp ss else ov ++ ' ' :: joinSp ss)
      ∧ ov.length ≤ 200
      ∧ headNotWs ov ∧ lastNotWs ov
      ∧ ((∃ s, ss = [s] ∧ cur.length ≤ 201 + s.length) ∨ cur.length ≤ 1001)

/-- The single chunk `split_text_into_chunks` produces for `"Hi. Yo."`, used
by the C7 witness. -/
def c7Chunk : Chunk :=
  { content := "Hi Yo".toList, chunk_id := "chunk_1_0".toList, source_page := 1,
    char_start := 0, char_end := 5, metadata := some { file_name := "unknown".toList } }

/-- The invariant C9 asserts of every chunk's metadata. -/
def metadataInvariant (c : Chunk) : Prop :=
  ∃ m, c.metadata = some m
    ∧ m.image_count = m.images.length
    ∧ (m.chunk_complex = true ↔ (m.images ≠ [] ∨ m.has_tables = true))
    ∧ (("images" ∈ m.modality) ↔ m.images ≠ [])

/-- Concrete docling result used by the C9 witness. -/
def c9Doc : DoclingResult := { content := { markdown := some "Short.".toList } }

/-- The single chunk `chunk_docling_result` produces for `c9Doc`. -/
def c9Chunk : Chunk :=
  { content := "Short.".toList, chunk_id := "chunk_1_0".toList, source_page := 1,
    char_start := 0, char_end := 6, metadata := some { file_name := "unknown".toList } }

/-- Concrete image used by witnesses (all-default fields, page defaulting to 1). -/
def cexImage : Image := {}

/-- Concrete chunk carrying one image, used by witnesses. -/
def cexChunkImg : Chunk :=
  { content := ['x'], chunk_id := [], source_page := 1,
    metadata := some { images := [cexImage], image_count := 1, chunk_complex := true } }

/-- Concrete chunk on page 1 used by the C3 counterexample. -/
def cexChunkP1 : Chunk :=
  { content := ['a'], chunk_id := [], source_page := 1, metadata := some {} }

/-- Concrete chunk on page 2 used by the C3 counterexample. -/
def cexChunkP2 : Chunk :=
  { content := ['b'], chunk_id := [], source_page := 2, metadata := some {} }

/-!  Theorems begin here: general lemmas about the embedded primitives first,
then one theorem per claim (with witnesses and counterexamples). -/

theorem mem_digitsLE_lt {f n d : Nat} (h : d ∈ digitsLE f n) : d < 10 := by
  induction f generalizing n with
  | zero => simp [digitsLE] at h
  | succ f ih =>
    by_cases h0 : n = 0
    · simp [digitsLE, h0] at h
    · simp only [digitsLE, h0, if_false, List.mem_cons] at h
      rcases h with h | h
      · subst h; exact Nat.mod_lt _ (by norm_num)
      · exact ih h

theorem ofLE_digitsLE {f n : Nat} (h : n ≤ f) : ofLE (digitsLE f n) = n := by
  induction f generalizing n with
  | zero => interval_cases n; simp [digitsLE, ofLE]
  | succ f ih =>
    by_cases h0 : n = 0
    · simp [digitsLE, h0, ofLE]
    · have hdiv : n / 10 ≤ f := by
        have : n / 10 < n := Nat.div_lt_self (Nat.pos_of_ne_zero h0) (by norm_num)
        omega
      simp only [digitsLE, h0, if_false, ofLE, List.foldr_cons]
      have := ih hdiv
      simp only [ofLE] at this
      rw [this, Nat.mod_add_div]

theorem charVal_digitChar10 {d : Nat} (h : d < 10) : charVal (digitChar10 d) = d := by
  interval_cases d <;> decide

theorem decodeStr_decChars (n : Nat) : decodeStr (decChars n) = n := by
  by_cases h0 : n = 0
  · subst h0; decide
  · simp only [decChars, h0, if_false, decodeStr, List.map_reverse, List.reverse_reverse,
      List.map_map]
    have : (digitsLE n n).map (charVal ∘ digitChar10) = (digitsLE n n).map id := by
      apply List.map_congr_left
      intro d hd
      exact charVal_digitChar10 (mem_digitsLE_lt hd)
    rw [this, List.map_id]
    exact ofLE_digitsLE le_rfl

theorem decodeStr_cons_zero (s : PyStr) : decodeStr ('0' :: s) = decodeStr s := by
  have hz : charVal '0' = 0 := by decide
  simp only [decodeStr, List.map_cons, hz, List.reverse_cons]
  simp only [ofLE, List.foldr_append, List.foldr_cons, List.foldr_nil]

theorem decodeStr_pad2 (n : Nat) : decodeStr (pad2 n) = n := by
  by_cases h : n < 10
  · simp only [pad2, h, if_true]
    rw [decodeStr_cons_zero, decodeStr_decChars]
  · simp only [pad2, h, if_false]
    exact decodeStr_decChars n

theorem pad2_inj {m n : Nat} (h : pad2 m = pad2 n) : m = n := by
  have := congrArg decodeStr h
  rwa [decodeStr_pad2, decodeStr_pad2] at this

theorem mem_decChars_ne_underscore {n : Nat} {c : Char} (h : c ∈ decChars n) : c ≠ '_' := by
  by_cases h0 : n = 0
  · subst h0; simp [decChars] at h; subst h; decide
  · simp only [decChars, h0, if_false, List.mem_reverse, List.mem_map] at h
    obtain ⟨d, hd, rfl⟩ := h
    have := mem_digitsLE_lt hd
    interval_cases d <;> decide

theorem mem_pad2_ne_underscore {n : Nat} {c : Char} (h : c ∈ pad2 n) : c ≠ '_' := by
  by_cases hlt : n < 10
  · simp only [pad2, hlt, if_true, List.mem_cons] at h
    rcases h with rfl | h
    · decide
    · exact mem_decChars_ne_underscore h
  · simp only [pad2, hlt, if_false] at h
    exact mem_decChars_ne_underscore h

theorem takeWhile_append_stop {α : Type} {p : α → Bool} {xs : List α} {y : α}
    {rest : List α} (hxs : ∀ x ∈ xs, p x = true) (hy : p y = false) :
    (xs ++ y :: rest).takeWhile p = xs := by
  induction xs with
  | nil => simp [List.takeWhile_cons, hy]
  | cons x xs ih =>
    have hx := hxs x (List.mem_cons_self x xs)
    simp only [List.cons_append, List.takeWhile_cons, hx, if_true]
    rw [ih (fun a ha => hxs a (List.mem_cons_of_mem x ha))]

theorem takeWhile_pad2_rev_tag {tag : Char} {cnt : Nat} {rest : PyStr} (htag : tag ≠ '_') :
    ((pad2 cnt).reverse ++ tag :: '_' :: rest).takeWhile (fun c => c != '_')
      = (pad2 cnt).reverse ++ [tag] := by
  have hshape : (pad2 cnt).reverse ++ tag :: '_' :: rest
      = ((pad2 cnt).reverse ++ [tag]) ++ '_' :: rest := by simp
  rw [hshape]
  apply takeWhile_append_stop
  · intro x hx
    rcases List.mem_append.mp hx with hx | hx
    · exact bne_iff_ne.mpr (mem_pad2_ne_underscore (List.mem_reverse.mp hx))
    · simp only [List.mem_singleton] at hx; subst hx; exact bne_iff_ne.mpr htag
  · decide

theorem afterLastSep_txtId (s : PyStr) (p c : Nat) :
    afterLastSep (txtId s p c) = (pad2 c).reverse ++ ['c'] := by
  have hrev : (txtId s p c).reverse = (pad2 c).reverse
      ++ 'c' :: '_' :: ((pad2 p).reverse ++ 'p' :: '_' :: (s.reverse ++ ['_','t','x','t'])) := by
    simp [txtId]
  rw [afterLastSep, hrev]
  exact takeWhile_pad2_rev_tag (by decide)

theorem afterLastSep_imgId (s : PyStr) (p c : Nat) :
    afterLastSep (imgId s p c) = (pad2 c).reverse ++ ['i'] := by
  have hrev : (imgId s p c).reverse = (pad2 c).reverse
      ++ 'i' :: '_' :: ((pad2 p).reverse ++ 'p' :: '_' :: (s.reverse ++ ['_','g','m','i'])) := by
    simp [imgId]
  rw [afterLastSep, hrev]
  exact takeWhile_pad2_rev_tag (by decide)

theorem txtId_cnt_inj {s : PyStr} {p c p' c' : Nat}
    (h : txtId s p c = txtId s p' c') : c = c' := by
  have h2 := congrArg afterLastSep h
  rw [afterLastSep_txtId, afterLastSep_txtId] at h2
  have h3 : (pad2 c).reverse = (pad2 c').reverse := by
    exact List.append_inj_left' h2 (by simp)
  exact pad2_inj (List.reverse_injective h3)

theorem imgId_cnt_inj {s : PyStr} {p c p' c' : Nat}
    (h : imgId s p c = imgId s p' c') : c = c' := by
  have h2 := congrArg afterLastSep h
  rw [afterLastSep_imgId, afterLastSep_imgId] at h2
  have h3 : (pad2 c).reverse = (pad2 c').reverse := by
    exact List.append_inj_left' h2 (by simp)
  exact pad2_inj (List.reverse_injective h3)

theorem mem_imageNodesOf_shape {sha4 fn nid : PyStr} {imgs : List Image} {i : Nat} {n : Node}
    (h : n ∈ imageNodesOf sha4 fn nid imgs i) :
    ∃ p c im md, n = Node.image (imgId sha4 p c) im md nid ∧ i < c := by
  induction imgs generalizing i with
  | nil => simp [imageNodesOf] at h
  | cons im rest ih =>
    simp only [imageNodesOf, List.mem_cons] at h
    rcases h with rfl | h
    · exact ⟨_, i + 1, _, _, rfl, Nat.lt_succ_self i⟩
    · obtain ⟨p, c, im', md, rfl, hc⟩ := ih h
      exact ⟨p, c, im', md, rfl, Nat.lt_of_succ_lt hc⟩

theorem mem_extractNodesGo_shape {sha4 : PyStr} {chunks : List Chunk} {t i : Nat} {n : Node}
    (h : n ∈ extractNodesGo sha4 chunks t i) :
    (∃ p c tx md, n = Node.text (txtId sha4 p c) tx md ∧ t < c) ∨
    (∃ p c im md pp pc, n = Node.image (imgId sha4 p c) im md (txtId sha4 pp pc)
      ∧ i < c ∧ t < pc) := by
  induction chunks generalizing t i with
  | nil => simp [extractNodesGo] at h
  | cons ch rest ih =>
    simp only [extractNodesGo, List.mem_cons, List.mem_append] at h
    rcases h with rfl | h | h
    · exact Or.inl ⟨ch.source_page, t + 1, _, _, rfl, Nat.lt_succ_self t⟩
    · obtain ⟨p, c, im, md, rfl, hc⟩ := mem_imageNodesOf_shape h
      exact Or.inr ⟨p, c, im, md, ch.source_page, t + 1, rfl, hc, Nat.lt_succ_self t⟩
    · rcases ih h with ⟨p, c, tx, md, rfl, hc⟩ | ⟨p, c, im, md, pp, pc, rfl, hc, hpc⟩
      · exact Or.inl ⟨p, c, tx, md, rfl, by omega⟩
      · exact Or.inr ⟨p, c, im, md, pp, pc, rfl, by omega, by omega⟩

theorem childIds_cons_text {id tx md tid} {l : List Node} :
    childIds (Node.text id tx md :: l) tid = childIds l tid := by
  simp [childIds, List.filterMap_cons]

theorem childIds_append (a b : List Node) (tid : PyStr) :
    childIds (a ++ b) tid = childIds a tid ++ childIds b tid := by
  simp [childIds, List.filterMap_append]

theorem childIds_imageNodesOf_self (sha4 fn nid : PyStr) (imgs : List Image) (i : Nat) :
    childIds (imageNodesOf sha4 fn nid imgs i) nid = imageRefsOf sha4 imgs i := by
  induction imgs generalizing i with
  | nil => simp [imageNodesOf, imageRefsOf, childIds]
  | cons im rest ih =>
    have hrec := ih (i + 1)
    simp only [childIds] at hrec
    simp [imageNodesOf, imageRefsOf, childIds, List.filterMap_cons, hrec]

theorem childIds_imageNodesOf_other {sha4 fn nid tid : PyStr} (hne : nid ≠ tid)
    (imgs : List Image) (i : Nat) :
    childIds (imageNodesOf sha4 fn nid imgs i) tid = [] := by
  induction imgs generalizing i with
  | nil => simp [imageNodesOf, childIds]
  | cons im rest ih =>
    simp only [imageNodesOf, childIds, List.filterMap_cons, if_neg hne]
    simp only [childIds] at ih
    rw [ih]

theorem childIds_go_past {sha4 : PyStr} {chunks : List Chunk} {t i p c : Nat}
    (hc : c ≤ t) :
    childIds (extractNodesGo sha4 chunks t i) (txtId sha4 p c) = [] := by
  rw [childIds, List.filterMap_eq_nil_iff]
  intro n hn
  rcases mem_extractNodesGo_shape hn with ⟨_, _, _, _, rfl, _⟩ | ⟨_, _, _, _, pp, pc, rfl, _, hpc⟩
  · rfl
  · simp only
    rw [if_neg]
    intro heq
    have := txtId_cnt_inj heq
    omega

theorem textCount_cons_image {iid im imd pp tid} {l : List Node} :
    textCount (Node.image iid im imd pp :: l) tid = textCount l tid := by
  simp [textCount, List.countP_cons]

theorem textCount_append (a b : List Node) (tid : PyStr) :
    textCount (a ++ b) tid = textCount a tid + textCount b tid := by
  simp [textCount, List.countP_append]

theorem textCount_imageNodesOf (sha4 fn nid tid : PyStr) (imgs : List Image) (i : Nat) :
    textCount (imageNodesOf sha4 fn nid imgs i) tid = 0 := by
  induction imgs generalizing i with
  | nil => simp [imageNodesOf, textCount]
  | cons im rest ih =>
    simp only [imageNodesOf]
    rw [textCount_cons_image, ih]

theorem textCount_go_past {sha4 : PyStr} {chunks : List Chunk} {t i p c : Nat}
    (hc : c ≤ t) :
    textCount (extractNodesGo sha4 chunks t i) (txtId sha4 p c) = 0 := by
  rw [textCount, List.countP_eq_zero]
  intro n hn
  rcases mem_extractNodesGo_shape hn with ⟨pp, pc, _, _, rfl, hpc⟩ | ⟨_, _, _, _, _, _, rfl, _, _⟩
  · simp only [decide_eq_true_eq]
    intro heq
    have := txtId_cnt_inj heq
    omega
  · simp

theorem extractNodesGo_refs {sha4 : PyStr} {chunks : List Chunk} :
    ∀ {t i : Nat} {id tx : PyStr} {md : TextNodeMeta},
      Node.text id tx md ∈ extractNodesGo sha4 chunks t i →
      md.image_refs = childIds (extractNodesGo sha4 chunks t i) id := by
  induction chunks with
  | nil => intro t i id tx md h; simp [extractNodesGo] at h
  | cons ch rest ih =>
    intro t i id tx md h
    simp only [extractNodesGo, List.mem_cons, List.mem_append] at h ⊢
    rcases h with heq | h | h
    · injection heq with h1 h2 h3
      subst h1; subst h3
      rw [childIds_cons_text, childIds_append, childIds_imageNodesOf_self,
        childIds_go_past le_rfl, List.append_nil]
    · obtain ⟨p, c, im, md', heq, _⟩ := mem_imageNodesOf_shape h
      exact absurd heq (by simp)
    · have hid := mem_extractNodesGo_shape h
      rcases hid with ⟨p, c, tx', md', heq, hcgt⟩ | ⟨_, _, _, _, _, _, heq, _, _⟩
      · injection heq with h1 h2 h3
        subst h1
        rw [childIds_cons_text, childIds_append,
          childIds_imageNodesOf_other (fun hx => by have := txtId_cnt_inj hx; omega),
          List.nil_append]
        exact ih h
      · exact absurd heq (by simp)

theorem extractNodesGo_unique {sha4 : PyStr} {chunks : List Chunk} :
    ∀ {t i : Nat} {id tx : PyStr} {md : TextNodeMeta},
      Node.text id tx md ∈ extractNodesGo sha4 chunks t i →
      textCount (extractNodesGo sha4 chunks t i) id = 1 := by
  induction chunks with
  | nil => intro t i id tx md h; simp [extractNodesGo] at h
  | cons ch rest ih =>
    intro t i id tx md h
    simp only [extractNodesGo, List.mem_cons, List.mem_append] at h ⊢
    rcases h with heq | h | h
    · injection heq with h1 h2 h3
      subst h1
      simp only [textCount, List.countP_cons, decide_eq_true_eq, if_pos rfl]
      have h0 : textCount (imageNodesOf sha4 (ch.metadata.getD {}).file_name
          (txtId sha4 ch.source_page (t + 1)) (ch.metadata.getD {}).images i
            ++ extractNodesGo sha4 rest (t + 1) (i + (ch.metadata.getD {}).images.length))
          (txtId sha4 ch.source_page (t + 1)) = 0 := by
        rw [textCount_append, textCount_imageNodesOf, textCount_go_past le_rfl]
      simp only [textCount] at h0
      rw [h0]
      simp
    · obtain ⟨p, c, im, md', heq, _⟩ := mem_imageNodesOf_shape h
      exact absurd heq (by simp)
    · have hid := mem_extractNodesGo_shape h
      rcases hid with ⟨p, c, tx', md', heq, hcgt⟩ | ⟨_, _, _, _, _, _, heq, _, _⟩
      · injection heq with h1 h2 h3
        subst h1
        have h0 : textCount (Node.text (txtId sha4 ch.source_page (t + 1)) ch.content
            { file_name := (ch.metadata.getD {}).file_name, char_start := ch.char_start,
              char_len := ch.content.length,
              is_complex := (ch.metadata.getD {}).document_complex,
              has_tables := (ch.metadata.getD {}).has_tables,
              image_refs := imageRefsOf sha4 (ch.metadata.getD {}).images i,
              page := if 0 < ch.source_page then some ch.source_page else none }
            :: (imageNodesOf sha4 (ch.metadata.getD {}).file_name
                  (txtId sha4 ch.source_page (t + 1)) (ch.metadata.getD {}).images i
                ++ extractNodesGo sha4 rest (t + 1)
                    (i + (ch.metadata.getD {}).images.length)))
            (txtId sha4 p c)
            = textCount (extractNodesGo sha4 rest (t + 1)
                (i + (ch.metadata.getD {}).images.length)) (txtId sha4 p c) := by
          rw [show ∀ x l, textCount (Node.text (txtId sha4 ch.source_page (t + 1)) ch.content x :: l)
                (txtId sha4 p c) = textCount l (txtId sha4 p c) from ?_, textCount_append,
            textCount_imageNodesOf, Nat.zero_add]
          intro x l
          simp only [textCount, List.countP_cons, decide_eq_true_eq]
          rw [if_neg (fun hx => by have := txtId_cnt_inj hx; omega)]
          simp
        simp only [textCount] at h0 ⊢
        rw [h0]
        have := ih h
        simpa [textCount] using this
      · exact absurd heq (by simp)

theorem extractNodesGo_parent_mem {sha4 : PyStr} {chunks : List Chunk} :
    ∀ {t i : Nat} {iid im : PyStr} {imd : ImageNodeMeta} {p : PyStr},
      Node.image iid im imd p ∈ extractNodesGo sha4 chunks t i →
      ∃ tx md, Node.text p tx md ∈ extractNodesGo sha4 chunks t i := by
  induction chunks with
  | nil => intro t i iid im imd p h; simp [extractNodesGo] at h
  | cons ch rest ih =>
    intro t i iid im imd p h
    simp only [extractNodesGo, List.mem_cons, List.mem_append] at h ⊢
    rcases h with heq | h | h
    · exact absurd heq (by simp)
    · obtain ⟨pg, c, im', md', heq, _⟩ := mem_imageNodesOf_shape h
      injection heq with h1 h2 h3 h4
      subst h4
      exact ⟨_, _, Or.inl rfl⟩
    · obtain ⟨tx, md, hmem⟩ := ih h
      exact ⟨tx, md, Or.inr (Or.inr hmem)⟩

theorem filterMap_textIdOf_imageNodesOf (sha4 fn nid : PyStr) (imgs : List Image) (i : Nat) :
    (imageNodesOf sha4 fn nid imgs i).filterMap textIdOf = [] := by
  induction imgs generalizing i with
  | nil => simp [imageNodesOf]
  | cons im rest ih => simp [imageNodesOf, textIdOf, ih]

theorem filterMap_textIdOf_go (sha4 : PyStr) (chunks : List Chunk) :
    ∀ t i, (extractNodesGo sha4 chunks t i).filterMap textIdOf
      = (chunks.enumFrom (t + 1)).map (fun pc => txtId sha4 pc.2.source_page pc.1) := by
  induction chunks with
  | nil => intro t i; simp [extractNodesGo]
  | cons ch rest ih =>
    intro t i
    simp only [extractNodesGo, List.filterMap_cons, List.filterMap_append,
      filterMap_textIdOf_imageNodesOf, List.enumFrom_cons, List.map_cons, textIdOf,
      List.nil_append]
    rw [ih]

theorem filterMap_imageIdOf_imageNodesOf (sha4 fn nid : PyStr) (imgs : List Image) :
    ∀ i, (imageNodesOf sha4 fn nid imgs i).filterMap imageIdOf
      = (imgs.enumFrom (i + 1)).map (fun pi => imgId sha4 (pi.2.page_number.getD 1) pi.1) := by
  induction imgs with
  | nil => intro i; simp [imageNodesOf]
  | cons im rest ih =>
    intro i
    simp [imageNodesOf, imageIdOf, List.enumFrom_cons, ih (i + 1)]

theorem filterMap_imageIdOf_go (sha4 : PyStr) (chunks : List Chunk) :
    ∀ t i, (extractNodesGo sha4 chunks t i).filterMap imageIdOf
      = ((allImagesOf chunks).enumFrom (i + 1)).map
          (fun pi => imgId sha4 (pi.2.page_number.getD 1) pi.1) := by
  induction chunks with
  | nil => intro t i; simp [extractNodesGo, allImagesOf]
  | cons ch rest ih =>
    intro t i
    simp only [extractNodesGo, List.filterMap_cons, List.filterMap_append, imageIdOf,
      List.nil_append]
    rw [filterMap_imageIdOf_imageNodesOf, ih]
    have hsplit : allImagesOf (ch :: rest) = (ch.metadata.getD {}).images ++ allImagesOf rest := rfl
    rw [hsplit, List.enumFrom_append, List.map_append]
    have harith : i + (ch.metadata.getD {}).images.length + 1
        = i + 1 + (ch.metadata.getD {}).images.length := by omega
    rw [harith]

/-- C1: referential symmetry of the Node Builder.  For every chunk list and
content hash, the image-node ids listed in any text node's `image_refs` are
exactly the ids of the image nodes whose relationships parent pointer equals
that text node's id, and every image node's relationships points to exactly
one text node of the produced node list. -/
theorem extract_nodes_referential_symmetry
    (chunks : List Chunk) (file_sha256 user : Option PyStr) (source_mime : Option String) :
    (∀ id tx md, Node.text id tx md ∈ (extract_nodes chunks file_sha256 user source_mime).nodes →
      ∀ r, r ∈ md.image_refs ↔
        r ∈ childIds (extract_nodes chunks file_sha256 user source_mime).nodes id) ∧
    (∀ iid im imd p,
      Node.image iid im imd p ∈ (extract_nodes chunks file_sha256 user source_mime).nodes →
      textCount (extract_nodes chunks file_sha256 user source_mime).nodes p = 1) := by
  constructor
  · intro id tx md h r
    rw [extractNodesGo_refs h]
    exact Iff.rfl
  · intro iid im imd p h
    obtain ⟨tx, md, hmem⟩ := extractNodesGo_parent_mem h
    exact extractNodesGo_unique hmem

theorem extract_nodes_referential_symmetry_witness :
    (Node.image (imgId ['0','0','0','0'] 1 1) [] { file_name := [], page := 1 }
        (txtId ['0','0','0','0'] 1 1) ∈ (extract_nodes [cexChunkImg] none none none).nodes) ∧
    textCount (extract_nodes [cexChunkImg] none none none).nodes
      (txtId ['0','0','0','0'] 1 1) = 1 :=
  ⟨by decide,
    (extract_nodes_referential_symmetry [cexChunkImg] none none none).2
      (imgId ['0','0','0','0'] 1 1) [] { file_name := [], page := 1 }
      (txtId ['0','0','0','0'] 1 1) (by decide)⟩

/-- C2: the Node Builder is deterministic: running `extract_nodes` twice on
identical chunk input and identical content hash yields identical node lists,
in particular byte-identical node id strings. -/
theorem extract_nodes_deterministic (chunks₁ chunks₂ : List Chunk)
    (f₁ f₂ u : Option PyStr) (m : Option String)
    (hc : chunks₁ = chunks₂) (hf : f₁ = f₂) :
    extract_nodes chunks₁ f₁ u m = extract_nodes chunks₂ f₂ u m ∧
    (extract_nodes chunks₁ f₁ u m).nodes.map Node.nodeId
      = (extract_nodes chunks₂ f₂ u m).nodes.map Node.nodeId := by
  subst hc; subst hf; exact ⟨rfl, rfl⟩

theorem extract_nodes_deterministic_witness :
    extract_nodes [cexChunkImg] (some ['a','b','c','d']) none none
        = extract_nodes [cexChunkImg] (some ['a','b','c','d']) none none ∧
    (extract_nodes [cexChunkImg] (some ['a','b','c','d']) none none).nodes.map Node.nodeId
        = (extract_nodes [cexChunkImg] (some ['a','b','c','d']) none none).nodes.map Node.nodeId :=
  extract_nodes_deterministic [cexChunkImg] [cexChunkImg]
    (some ['a','b','c','d']) (some ['a','b','c','d']) none none rfl rfl

/-- C3 counterexample: the code's text counter does NOT restart per page.
With one chunk on page 1 followed by one chunk on page 2, the code produces
text ids `txt_0000_p01_c01, txt_0000_p02_c02` (single global counter), while
the claimed per-page restarting counter (`perPageTextIds`, modelled from the
spec's words) would produce `txt_0000_p02_c01` for the page-2 chunk. -/
theorem extract_nodes_text_ids_not_per_page :
    (extract_nodes [cexChunkP1, cexChunkP2] none none none).nodes.filterMap textIdOf
        = [txtId ['0','0','0','0'] 1 1, txtId ['0','0','0','0'] 2 2] ∧
    perPageTextIds (sha4Of none) [cexChunkP1, cexChunkP2] (fun _ => 0)
        = [txtId ['0','0','0','0'] 1 1, txtId ['0','0','0','0'] 2 1] ∧
    (extract_nodes [cexChunkP1, cexChunkP2] none none none).nodes.filterMap textIdOf
        ≠ perPageTextIds (sha4Of none) [cexChunkP1, cexChunkP2] (fun _ => 0) :=
  ⟨by decide, by decide, by decide⟩

/-- C3 amended: every text node id uses a single global running text counter
(the k-th chunk's text node has sequence component k, counting from 1,
regardless of page), and every image node id uses a single global running
image counter over the traversal order of attached images. -/
theorem extract_nodes_counters_global (chunks : List Chunk) (f u : Option PyStr)
    (m : Option String) :
    (extract_nodes chunks f u m).nodes.filterMap textIdOf
      = (chunks.enumFrom 1).map (fun pc => txtId (sha4Of f) pc.2.source_page pc.1) ∧
    (extract_nodes chunks f u m).nodes.filterMap imageIdOf
      = ((allImagesOf chunks).enumFrom 1).map
          (fun pi => imgId (sha4Of f) (pi.2.page_number.getD 1) pi.1) :=
  ⟨filterMap_textIdOf_go (sha4Of f) chunks 0 0, filterMap_imageIdOf_go (sha4Of f) chunks 0 0⟩

/-- C10: when `file_sha256` is `None` or shorter than 4 characters every
generated node id is built over the literal hash suffix `0000`; otherwise the
suffix is exactly the last 4 characters of `file_sha256`. -/
theorem extract_nodes_sha4_suffix (chunks : List Chunk) (f u : Option PyStr)
    (m : Option String) :
    (∀ n ∈ (extract_nodes chunks f u m).nodes,
      ∃ p c, n.nodeId = txtId (sha4Of f) p c ∨ n.nodeId = imgId (sha4Of f) p c) ∧
    ((f = none ∨ ∃ s, f = some s ∧ s.length < 4) → sha4Of f = ['0','0','0','0']) ∧
    (∀ s, f = some s → 4 ≤ s.length → sha4Of f = s.drop (s.length - 4)) := by
  refine ⟨?_, ?_, ?_⟩
  · intro n hn
    rcases mem_extractNodesGo_shape hn with ⟨p, c, _, _, rfl, _⟩ | ⟨p, c, _, _, _, _, rfl, _, _⟩
    · exact ⟨p, c, Or.inl rfl⟩
    · exact ⟨p, c, Or.inr rfl⟩
  · rintro (rfl | ⟨s, rfl, hlen⟩)
    · rfl
    · simp only [sha4Of]
      rw [if_neg]
      rintro ⟨_, h4⟩
      omega
  · rintro s rfl h4
    simp only [sha4Of]
    rw [if_pos ⟨List.ne_nil_of_length_pos (by omega), h4⟩]

theorem extract_nodes_sha4_suffix_witness :
    ((['a','b'] : PyStr).length < 4 ∧ sha4Of (some ['a','b']) = ['0','0','0','0']) ∧
    (4 ≤ (['a','b','c','d','e'] : PyStr).length ∧
      sha4Of (some ['a','b','c','d','e'])
        = (['a','b','c','d','e'] : PyStr).drop ((['a','b','c','d','e'] : PyStr).length - 4)) ∧
    ∃ p c, (Node.text (txtId ['0','0','0','0'] 1 1) ['a']
        { file_name := [], char_start := 0, char_len := 1, is_complex := false,
          has_tables := false, image_refs := [], page := some 1 }).nodeId
          = txtId (sha4Of (none : Option PyStr)) p c
        ∨ (Node.text (txtId ['0','0','0','0'] 1 1) ['a']
        { file_name := [], char_start := 0, char_len := 1, is_complex := false,
          has_tables := false, image_refs := [], page := some 1 }).nodeId
          = imgId (sha4Of (none : Option PyStr)) p c :=
  ⟨⟨by decide,
      (extract_nodes_sha4_suffix [] (some ['a','b']) none none).2.1
        (Or.inr ⟨['a','b'], rfl, by decide⟩)⟩,
    ⟨by decide,
      (extract_nodes_sha4_suffix [] (some ['a','b','c','d','e']) none none).2.2
        ['a','b','c','d','e'] rfl (by decide)⟩,
    (extract_nodes_sha4_suffix [cexChunkP1] none none none).1 _ (by decide)⟩

/-- C4 counterexample: the placeholder path of `_extract_images_for_chunk`
draws from the document-wide image lookup, neither filtered by the chunk's
page nor depleted across chunks.  With two placeholder-only pages and a
single image recorded on page 5, the page-aware chunker assigns that one
image to both the page-1 and the page-2 chunk. -/
theorem extract_images_for_chunk_pool_not_per_page :
    ((chunk_docling_result_with_pages 1000 200 c4Doc
        (some [(0, imageMarker), (1, imageMarker)])).map
      (fun c => ((c.metadata.getD {}).images, c.source_page)))
      = [([c4Image], 1), ([c4Image], 2)]
    ∧ c4Image.page_number = some 5 := by
  constructor
  · decide
  · rfl

/-- C4 amended: whenever the chunk text contains `n ≥ 1` literal
`<!-- image -->` markers, the assigned images are exactly the first
`min(n, total)` values of the document-wide image lookup, in insertion order
(a prefix of the lookup's values); the pool is not restricted to the chunk's
page and is not consumed, so the same leading images may be assigned to
several chunks. -/
theorem extract_images_for_chunk_marker_path (text_chunk : PyStr)
    (image_lookup : List (PyStr × Image))
    (h : 0 < pyCount text_chunk imageMarker) :
    extract_images_for_chunk text_chunk image_lookup
        = (image_lookup.map Prod.snd).take (pyCount text_chunk imageMarker)
    ∧ (extract_images_for_chunk text_chunk image_lookup).length
        = min (pyCount text_chunk imageMarker) image_lookup.length
    ∧ extract_images_for_chunk text_chunk image_lookup <+: image_lookup.map Prod.snd := by
  refine ⟨?_, ?_, ?_⟩
  · simp [extract_images_for_chunk, if_pos h]
  · simp [extract_images_for_chunk, if_pos h, List.length_take]
  · simp only [extract_images_for_chunk, if_pos h]
    exact List.take_prefix _ _

theorem extract_images_for_chunk_marker_path_witness :
    0 < pyCount imageMarker imageMarker ∧
    extract_images_for_chunk imageMarker [(['k'], c4Image)]
      = ([(['k'], c4Image)].map Prod.snd).take (pyCount imageMarker imageMarker) :=
  ⟨by decide,
    (extract_images_for_chunk_marker_path imageMarker [(['k'], c4Image)] (by decide)).1⟩

theorem metadataInvariant_create_chunk (content chunk_id : PyStr) (sp cs ce : Nat)
    (ft : String) (fn : PyStr) (imgs : List Image) (dc : Bool) (mod : List String)
    (ht : Bool) (hc ho pi : Option Bool) :
    metadataInvariant (create_chunk content chunk_id sp cs ce
      (some (create_chunk_metadata ft fn imgs dc mod ht hc ho pi))) := by
  refine ⟨create_chunk_metadata ft fn imgs dc mod ht hc ho pi, rfl, rfl, ?_, ?_⟩
  · cases imgs <;> cases ht <;> simp [create_chunk_metadata]
  · cases imgs <;> simp [create_chunk_metadata]

theorem metadataInvariant_makeSplitChunk (ft : String) (fn cp : PyStr)
    (il : List (PyStr × Image)) (dc : Bool) (mod : List String) (pn : Nat)
    (cur : PyStr) (st cnt : Nat) :
    metadataInvariant (makeSplitChunk ft fn cp il dc mod pn cur st cnt) :=
  metadataInvariant_create_chunk _ _ _ _ _ _ _ _ _ _ _ _ _ _

theorem mem_splitLoopGo_invariant {cs ov : Nat} {ft : String} {fn cp : PyStr}
    {il : List (PyStr × Image)} {dc : Bool} {mod : List String} {pn : Nat} :
    ∀ {sents : List PyStr} {cur : PyStr} {st cnt : Nat} {c : Chunk},
      c ∈ splitLoopGo cs ov ft fn cp il dc mod pn sents cur st cnt →
      metadataInvariant c := by
  intro sents
  induction sents with
  | nil =>
    intro cur st cnt c h
    simp only [splitLoopGo] at h
    split at h
    · simp only [List.mem_singleton] at h
      subst h
      exact metadataInvariant_makeSplitChunk _ _ _ _ _ _ _ _ _ _
    · simp at h
  | cons s rest ih =>
    intro cur st cnt c h
    simp only [splitLoopGo] at h
    split at h
    · simp only [List.mem_cons] at h
      rcases h with rfl | h
      · exact metadataInvariant_makeSplitChunk _ _ _ _ _ _ _ _ _ _
      · exact ih h
    · exact ih h

theorem mem_split_text_into_chunks_invariant {cs ov : Nat} {text : PyStr} {pn : Nat}
    {ft : String} {cp : PyStr} {il : List (PyStr × Image)} {dc : Bool}
    {mod : List String} {fn : PyStr} {c : Chunk}
    (h : c ∈ split_text_into_chunks cs ov text pn ft cp il dc mod fn) :
    metadataInvariant c := by
  simp only [split_text_into_chunks] at h
  split at h
  · simp at h
  · exact mem_splitLoopGo_invariant h

theorem mem_headerLoop_invariant {cs ov : Nat} {ft : String} {fn : PyStr}
    {il : List (PyStr × Image)} {dc : Bool} {mod : List String} :
    ∀ {secs : List PyStr} {i pos : Nat} {c : Chunk},
      c ∈ headerLoop cs ov ft fn il dc mod secs i pos → metadataInvariant c := by
  intro secs
  induction secs with
  | nil => intro i pos c h; simp [headerLoop] at h
  | cons s rest ih =>
    intro i pos c h
    simp only [headerLoop] at h
    split at h
    · simp only [List.mem_cons] at h
      rcases h with rfl | h
      · exact metadataInvariant_create_chunk _ _ _ _ _ _ _ _ _ _ _ _ _ _
      · exact ih h
    · rcases List.mem_append.mp h with h | h
      · exact mem_split_text_into_chunks_invariant h
      · exact ih h

theorem mem_imageChunksGo_invariant {ft : String} {fn : PyStr} {dc : Bool}
    {mod : List String} {ml : Nat} :
    ∀ {imgs : List Image} {i : Nat} {c : Chunk},
      c ∈ imageChunksGo ft fn dc mod ml imgs i → metadataInvariant c := by
  intro imgs
  induction imgs with
  | nil => intro i c h; simp [imageChunksGo] at h
  | cons im rest ih =>
    intro i c h
    simp only [imageChunksGo] at h
    split_ifs at h <;>
      first
        | exact ih h
        | (rcases List.mem_cons.mp h with rfl | h
           exacts [metadataInvariant_create_chunk _ _ _ _ _ _ _ _ _ _ _ _ _ _, ih h])

theorem mem_imageChunksPagesGo_invariant {ft : String} {fn : PyStr} {dc : Bool}
    {mod : List String} :
    ∀ {imgs : List Image} {i : Nat} {c : Chunk},
      c ∈ imageChunksPagesGo ft fn dc mod imgs i → metadataInvariant c := by
  intro imgs
  induction imgs with
  | nil => intro i c h; simp [imageChunksPagesGo] at h
  | cons im rest ih =>
    intro i c h
    simp only [imageChunksPagesGo] at h
    split_ifs at h <;>
      first
        | exact ih h
        | (rcases List.mem_cons.mp h with rfl | h
           exacts [metadataInvariant_create_chunk _ _ _ _ _ _ _ _ _ _ _ _ _ _, ih h])

theorem mem_chunk_docling_result_invariant {cs ov : Nat} {dr : DoclingResult} {c : Chunk}
    (h : c ∈ chunk_docling_result cs ov dr) : metadataInvariant c := by
  simp only [chunk_docling_result] at h
  split at h
  · rcases List.mem_append.mp h with h | h
    · split at h
      · split at h
        · exact mem_headerLoop_invariant h
        · exact mem_split_text_into_chunks_invariant h
      · simp at h
    · exact mem_imageChunksGo_invariant h
  · simp only [List.mem_flatMap] at h
    obtain ⟨pg, _, h⟩ := h
    split at h
    · exact mem_split_text_into_chunks_invariant h
    · simp at h

/-- C9: every chunk produced by either chunker entry point carries non-`None`
metadata in which `image_count` equals the number of attached images,
`chunk_complex` holds exactly when the chunk has at least one image or its
`has_tables` flag is set, and the modality list contains `"images"` exactly
when the chunk has at least one image. -/
theorem chunker_metadata_invariant (chunk_size overlap : Nat) (dr : DoclingResult)
    (pm : Option (List (Nat × PyStr))) :
    (∀ c ∈ chunk_docling_result chunk_size overlap dr, metadataInvariant c) ∧
    (∀ c ∈ chunk_docling_result_with_pages chunk_size overlap dr pm, metadataInvariant c) := by
  constructor
  · intro c h
    exact mem_chunk_docling_result_invariant h
  · intro c h
    simp only [chunk_docling_result_with_pages] at h
    split at h
    · split at h
      · rcases List.mem_append.mp h with h | h
        · simp only [List.mem_flatMap] at h
          obtain ⟨pt, _, h⟩ := h
          split at h
          · simp at h
          · exact mem_split_text_into_chunks_invariant h
        · exact mem_imageChunksPagesGo_invariant h
      · exact mem_chunk_docling_result_invariant h
    · exact mem_chunk_docling_result_invariant h

theorem chunker_metadata_invariant_witness :
    (c9Chunk ∈ chunk_docling_result 1000 200 c9Doc) ∧ metadataInvariant c9Chunk :=
  ⟨by decide, (chunker_metadata_invariant 1000 200 c9Doc none).1 c9Chunk (by decide)⟩

theorem dropWhile_head_not {α : Type} {p : α → Bool} {l : List α} {c : α}
    (h : (l.dropWhile p).head? = some c) : p c = false := by
  induction l with
  | nil => simp [List.dropWhile] at h
  | cons x xs ih =>
    rw [List.dropWhile_cons] at h
    split at h
    · exact ih h
    · next hx =>
      simp only [List.head?_cons, Option.some_inj] at h
      subst h
      exact Bool.not_eq_true _ ▸ Bool.of_not_eq_true hx

theorem dropWhile_eq_self_of_head {α : Type} {p : α → Bool} {l : List α}
    (h : ∀ c, l.head? = some c → p c = false) : l.dropWhile p = l := by
  cases l with
  | nil => rfl
  | cons x xs =>
    rw [List.dropWhile_cons, if_neg]
    simp [h x rfl]

theorem trimRight_prefix (l : PyStr) : trimRight l <+: l := by
  obtain ⟨t, ht⟩ := List.dropWhile_suffix (l := l.reverse) pyIsSpace
  exact ⟨t.reverse, by
    rw [trimRight, ← List.reverse_append, ht, List.reverse_reverse]⟩

theorem pyStrip_head_not {s : PyStr} : headNotWs (pyStrip s) := by
  intro c hc
  rw [pyStrip] at hc
  obtain ⟨t, ht⟩ := trimRight_prefix (trimLeft s)
  have hhead : (trimLeft s).head? = some c := by
    rw [← ht, List.head?_append, hc]
    rfl
  exact dropWhile_head_not hhead

theorem pyStrip_last_not {s : PyStr} : lastNotWs (pyStrip s) := by
  intro c hc
  rw [pyStrip, trimRight, List.getLast?_reverse] at hc
  exact dropWhile_head_not hc

theorem pyStrip_eq_self {s : PyStr} (hh : headNotWs s) (hl : lastNotWs s) :
    pyStrip s = s := by
  have h1 : trimLeft s = s := dropWhile_eq_self_of_head hh
  have h2 : s.reverse.dropWhile pyIsSpace = s.reverse :=
    dropWhile_eq_self_of_head (fun c hc => hl c (by rwa [List.head?_reverse] at hc))
  rw [pyStrip, h1, trimRight, h2, List.reverse_reverse]

theorem pyStrip_length_le (s : PyStr) : (pyStrip s).length ≤ s.length := by
  have h1 : (trimLeft s).length ≤ s.length :=
    (List.dropWhile_suffix pyIsSpace).length_le
  have h2 : (trimRight (trimLeft s)).length ≤ (trimLeft s).length := by
    have := (List.dropWhile_suffix (l := (trimLeft s).reverse) pyIsSpace).length_le
    simpa [trimRight] using this
  exact le_trans h2 h1

theorem mem_stripFilter_good {L : List PyStr} {s : PyStr}
    (h : s ∈ (L.map pyStrip).filter (fun x => !x.isEmpty)) : goodToken s := by
  rw [List.mem_filter] at h
  obtain ⟨h1, h2⟩ := h
  rw [List.mem_map] at h1
  obtain ⟨y, _, rfl⟩ := h1
  exact ⟨by simpa using h2, pyStrip_head_not, pyStrip_last_not⟩

theorem mem_split_into_sentences_good (t : PyStr) :
    ∀ s ∈ split_into_sentences t, goodToken s := by
  intro s hs
  simp only [split_into_sentences] at hs
  split at hs
  · split at hs
    · rw [List.mem_filterMap] at hs
      obtain ⟨y, _, hy⟩ := hs
      split at hy
      · exact absurd hy (by simp)
      · next hne =>
        rw [Option.some_inj] at hy
        subst hy
        refine ⟨by simp [hne], ?_, ?_⟩
        · intro c hc
          rw [List.head?_append] at hc
          cases hyh : (pyStrip y).head? with
          | none => exact absurd (List.head?_eq_none_iff.mp hyh) hne
          | some d =>
            rw [hyh] at hc
            simp only [Option.or_some, Option.some_inj] at hc
            subst hc
            exact pyStrip_head_not d hyh
        · intro c hc
          rw [List.getLast?_append] at hc
          simp only [List.getLast?_singleton, Option.or, Option.some_inj] at hc
          subst hc
          decide
    · exact mem_stripFilter_good hs
  · exact mem_stripFilter_good hs

theorem joinSp_ne_nil {s0 : PyStr} {rest : List PyStr} (h : s0 ≠ []) :
    joinSp (s0 :: rest) ≠ [] := by
  cases rest with
  | nil => simpa [joinSp] using h
  | cons r rs => simp [joinSp]

theorem joinSp_append_singleton {ss : List PyStr} (h : ss ≠ []) (s : PyStr) :
    joinSp (ss ++ [s]) = joinSp ss ++ ' ' :: s := by
  induction ss with
  | nil => exact absurd rfl h
  | cons s0 rest ih =>
    cases rest with
    | nil => rfl
    | cons r rs =>
      have hrec : joinSp ((r :: rs) ++ [s]) = joinSp (r :: rs) ++ ' ' :: s := ih (by simp)
      calc joinSp ((s0 :: r :: rs) ++ [s])
          = s0 ++ ' ' :: joinSp ((r :: rs) ++ [s]) := rfl
        _ = s0 ++ ' ' :: (joinSp (r :: rs) ++ ' ' :: s) := by rw [hrec]
        _ = joinSp (s0 :: r :: rs) ++ ' ' :: s := by simp [joinSp]

theorem joinSp_head_not {ss : List PyStr} (hg : ∀ x ∈ ss, goodToken x) :
    headNotWs (joinSp ss) := by
  intro c hc
  cases ss with
  | nil => simp [joinSp] at hc
  | cons s0 rest =>
    have hgood := hg s0 (List.mem_cons_self s0 rest)
    have hkey : (joinSp (s0 :: rest)).head? = s0.head? := by
      cases rest with
      | nil => rfl
      | cons r rs =>
        simp only [joinSp, List.head?_append]
        cases hs0 : s0.head? with
        | none => exact absurd (List.head?_eq_none_iff.mp hs0) hgood.1
        | some d => rfl
    rw [hkey] at hc
    exact hgood.2.1 c hc

theorem joinSp_last_not {ss : List PyStr} (hg : ∀ x ∈ ss, goodToken x) :
    lastNotWs (joinSp ss) := by
  induction ss with
  | nil => intro c hc; simp [joinSp] at hc
  | cons s0 rest ih =>
    intro c hc
    cases rest with
    | nil => exact (hg s0 (List.mem_cons_self s0 [])).2.2 c hc
    | cons r rs =>
      have hrest : ∀ x ∈ r :: rs, goodToken x :=
        fun x hx => hg x (List.mem_cons_of_mem s0 hx)
      have hne : joinSp (r :: rs) ≠ [] :=
        joinSp_ne_nil (hrest r (List.mem_cons_self r rs)).1
      simp only [joinSp, List.getLast?_append] at hc
      have hcons : (' ' :: joinSp (r :: rs)).getLast? = (joinSp (r :: rs)).getLast? := by
        rw [show (' ' :: joinSp (r :: rs)) = [' '] ++ joinSp (r :: rs) from rfl,
          List.getLast?_append]
        cases hlast : (joinSp (r :: rs)).getLast? with
        | none => exact absurd (List.getLast?_eq_none_iff.mp hlast) hne
        | some d => rfl
      rw [hcons] at hc
      cases hlast : (joinSp (r :: rs)).getLast? with
      | none => exact absurd (List.getLast?_eq_none_iff.mp hlast) hne
      | some d =>
        rw [hlast] at hc
        simp only [Option.or, Option.some_inj] at hc
        subst hc
        exact ih hrest d hlast

theorem mem_of_getLast? {α : Type} {l : List α} {a : α} (h : l.getLast? = some a) :
    a ∈ l := by
  induction l with
  | nil => simp at h
  | cons x xs ih =>
    cases xs with
    | nil =>
      simp only [List.getLast?_singleton, Option.some_inj] at h
      subst h
      exact List.mem_singleton_self _
    | cons y ys =>
      rw [List.getLast?_cons_cons] at h
      exact List.mem_cons_of_mem x (ih h)

theorem curShape_edges {ov : PyStr} {ss : List PyStr} {cur : PyStr} (hss : ss ≠ [])
    (hg : ∀ x ∈ ss, goodToken x) (hovh : headNotWs ov) (_hovl : lastNotWs ov)
    (hcur : cur = if ov = [] then joinSp ss else ov ++ ' ' :: joinSp ss) :
    headNotWs cur ∧ lastNotWs cur ∧ cur ≠ [] := by
  obtain ⟨s0, rest, rfl⟩ := List.exists_cons_of_ne_nil hss
  have hne : joinSp (s0 :: rest) ≠ [] := joinSp_ne_nil (hg s0 (List.mem_cons_self s0 rest)).1
  subst hcur
  by_cases hov0 : ov = []
  · rw [if_pos hov0]
    exact ⟨joinSp_head_not hg, joinSp_last_not hg, hne⟩
  · rw [if_neg hov0]
    refine ⟨?_, ?_, by simp [hov0]⟩
    · intro c hc
      rw [List.head?_append] at hc
      cases hovh' : ov.head? with
      | none => exact absurd (List.head?_eq_none_iff.mp hovh') hov0
      | some d =>
        rw [hovh'] at hc
        simp only [Option.or, Option.some_inj] at hc
        subst hc
        exact hovh d hovh'
    · intro c hc
      rw [List.getLast?_append,
        show (' ' :: joinSp (s0 :: rest)) = [' '] ++ joinSp (s0 :: rest) from rfl,
        List.getLast?_append] at hc
      cases hlast : (joinSp (s0 :: rest)).getLast? with
      | none => exact absurd (List.getLast?_eq_none_iff.mp hlast) hne
      | some d =>
        rw [hlast] at hc
        simp only [Option.or, Option.some_inj] at hc
        subst hc
        exact joinSp_last_not hg d hlast

theorem overlapTextOf_length_le (ov : Nat) (cur : PyStr) :
    (overlapTextOf ov cur).length ≤ ov := by
  simp only [overlapTextOf]
  split
  · next hlt =>
    have hcand : (cur.drop (cur.length - ov)).length = ov := by
      rw [List.length_drop]
      omega
    split
    · have hstep : ((cur.drop (cur.length - ov)).drop
          (pyFindSpace (cur.drop (cur.length - ov)) 0).toNat).length ≤ ov := by
        rw [List.length_drop, hcand]
        omega
      exact le_trans (pyStrip_length_le _) hstep
    · exact le_trans (pyStrip_length_le _) (le_of_eq hcand)
  · next hge => omega

theorem overlapTextOf_edges {ov : Nat} {cur : PyStr} (hh : headNotWs cur)
    (hl : lastNotWs cur) :
    headNotWs (overlapTextOf ov cur) ∧ lastNotWs (overlapTextOf ov cur) := by
  simp only [overlapTextOf]
  split
  · split
    · exact ⟨pyStrip_head_not, pyStrip_last_not⟩
    · exact ⟨pyStrip_head_not, pyStrip_last_not⟩
  · exact ⟨hh, hl⟩

theorem flushChunk_aligned {SENTS done rest : List PyStr} {ft : String}
    {fn cp : PyStr} {il : List (PyStr × Image)} {dc : Bool} {mod : List String}
    {pn : Nat} {cur : PyStr} {st cnt : Nat}
    (hgood : ∀ s ∈ SENTS, goodToken s)
    (hSENTS : SENTS = done ++ rest)
    (hinv : curInv done cur) (hne : cur ≠ []) :
    sentenceAligned SENTS 1000 200
      (makeSplitChunk ft fn cp il dc mod pn cur st cnt) := by
  rcases hinv with rfl | ⟨ov, ss, hss, hsuf, hcur, hovlen, hovh, hovl, hbound⟩
  · exact absurd rfl hne
  · have hdonepre : done <+: SENTS := ⟨rest, hSENTS.symm⟩
    have hssSub : ∀ x ∈ ss, x ∈ SENTS := fun x hx => hdonepre.subset (hsuf.subset hx)
    have hgss : ∀ x ∈ ss, goodToken x := fun x hx => hgood x (hssSub x hx)
    obtain ⟨hh, hl, _⟩ := curShape_edges hss hgss hovh hovl hcur
    have hcontent : (makeSplitChunk ft fn cp il dc mod pn cur st cnt).content = cur := by
      show pyStrip cur = cur
      exact pyStrip_eq_self hh hl
    have hinfix : ss <:+: SENTS := by
      obtain ⟨u, hu⟩ := hsuf
      exact ⟨u, rest, by rw [hu, ← hSENTS]⟩
    obtain ⟨slast, hslast⟩ : ∃ x, ss.getLast? = some x := by
      cases hl0 : ss.getLast? with
      | none => exact absurd (List.getLast?_eq_none_iff.mp hl0) hss
      | some x => exact ⟨x, rfl⟩
    have hslastMem : slast ∈ SENTS := hssSub _ (mem_of_getLast? hslast)
    have hlen : cur.length ≤ 1000 + slast.length := by
      rcases hbound with ⟨x, rfl, hle⟩ | hle
      · simp only [List.getLast?_singleton, Option.some_inj] at hslast
        subst hslast
        omega
      · have hpos : 0 < slast.length :=
          List.length_pos.mpr (hgood slast hslastMem).1
        omega
    exact ⟨ov, ss, hss, hinfix, by rw [hcontent]; exact hcur, hovlen, slast, hslast,
      hslastMem, by rw [hcontent]; exact hlen⟩

theorem splitLoopGo_aligned {ft : String} {fn cp : PyStr} {il : List (PyStr × Image)}
    {dc : Bool} {mod : List String} {pn : Nat} {SENTS : List PyStr}
    (hgood : ∀ s ∈ SENTS, goodToken s) :
    ∀ (rest done : List PyStr) (cur : PyStr) (st cnt : Nat) (c : Chunk),
      SENTS = done ++ rest → curInv done cur →
      c ∈ splitLoopGo 1000 200 ft fn cp il dc mod pn rest cur st cnt →
      sentenceAligned SENTS 1000 200 c := by
  intro rest
  induction rest with
  | nil =>
    intro done cur st cnt c hSENTS hinv hmem
    simp only [splitLoopGo] at hmem
    split at hmem
    · next hstrip =>
      rw [List.mem_singleton] at hmem
      subst hmem
      have hne : cur ≠ [] := by
        intro h0
        rw [h0] at hstrip
        exact hstrip rfl
      exact flushChunk_aligned hgood hSENTS hinv hne
    · simp at hmem
  | cons s rest' ih =>
    intro done cur st cnt c hSENTS hinv hmem
    have hSENTS' : SENTS = (done ++ [s]) ++ rest' := by
      rw [hSENTS, List.append_assoc]
      rfl
    simp only [splitLoopGo] at hmem
    split at hmem
    · next hguard =>
      rw [List.mem_cons] at hmem
      rcases hmem with rfl | hmem
      · exact flushChunk_aligned hgood hSENTS hinv hguard.2
      · rcases hinv with rfl | ⟨ov, ss, hss, hsuf, hcur, hovlen, hovh, hovl, hbound⟩
        · exact absurd rfl hguard.2
        have hdonepre : done <+: SENTS := ⟨s :: rest', hSENTS.symm⟩
        have hgss : ∀ x ∈ ss, goodToken x :=
          fun x hx => hgood x (hdonepre.subset (hsuf.subset hx))
        obtain ⟨hh, hl, _⟩ := curShape_edges hss hgss hovh hovl hcur
        obtain ⟨hoh, hol⟩ := @overlapTextOf_edges 200 cur hh hl
        refine ih (done ++ [s]) _ _ _ c hSENTS' ?_ hmem
        right
        refine ⟨overlapTextOf 200 cur, [s], by simp, List.suffix_append done [s], ?_,
          overlapTextOf_length_le 200 cur, hoh, hol, Or.inl ⟨s, rfl, ?_⟩⟩
        · by_cases h0 : overlapTextOf 200 cur = [] <;> simp [h0, joinSp]
        · by_cases h0 : overlapTextOf 200 cur = []
          · simp [h0]
          · have := overlapTextOf_length_le 200 cur
            rw [if_pos h0]
            simp only [List.length_append, List.length_cons]
            omega
    · next hguard =>
      by_cases hc0 : cur = []
      · rw [if_neg (fun hx => hx hc0)] at hmem
        refine ih (done ++ [s]) _ _ _ c hSENTS' ?_ hmem
        right
        refine ⟨[], [s], by simp, List.suffix_append done [s], by simp [joinSp], by simp,
          ?_, ?_, Or.inl ⟨s, rfl, by omega⟩⟩
        · intro x hx
          simp at hx
        · intro x hx
          simp at hx
      · rw [if_pos hc0] at hmem
        have hle : cur.length + s.length ≤ 1000 := by
          by_contra hgt
          exact hguard ⟨by omega, hc0⟩
        rcases hinv with rfl | ⟨ov, ss, hss, hsuf, hcur, hovlen, hovh, hovl, hbound⟩
        · exact absurd rfl hc0
        refine ih (done ++ [s]) _ _ _ c hSENTS' ?_ hmem
        right
        refine ⟨ov, ss ++ [s], by simp, ?_, ?_, hovlen, hovh, hovl, Or.inr ?_⟩
        · obtain ⟨u, hu⟩ := hsuf
          exact ⟨u, by rw [← List.append_assoc, hu]⟩
        · rw [joinSp_append_singleton hss]
          by_cases h0 : ov = []
          · rw [if_pos h0]
            rw [if_pos h0] at hcur
            rw [hcur]
          · rw [if_neg h0]
            rw [if_neg h0] at hcur
            rw [hcur]
            simp [List.append_assoc]
        · simp only [List.length_append, List.length_cons]
          omega

/-- C7: with `chunk_size = 1000` and `overlap = 200`, every chunk the
sentence-overlap splitter produces is an overlap seed of at most 200
characters followed by a space-joined run of consecutive whole sentences of
the input's sentence decomposition (boundaries never truncate the new content
mid-sentence), and its content length is at most `chunk_size` plus the length
of its trailing sentence. -/
theorem split_text_into_chunks_size_bound (text : PyStr) (pn : Nat) (ft : String)
    (cp : PyStr) (il : List (PyStr × Image)) (dc : Bool) (mod : List String)
    (fn : PyStr) :
    ∀ c ∈ split_text_into_chunks 1000 200 text pn ft cp il dc mod fn,
      sentenceAligned (split_into_sentences (pyStrip text)) 1000 200 c := by
  intro c h
  simp only [split_text_into_chunks] at h
  split at h
  · simp at h
  · exact splitLoopGo_aligned (mem_split_into_sentences_good _)
      (split_into_sentences (pyStrip text)) [] [] 0 0 c rfl (Or.inl rfl) h

theorem split_text_into_chunks_size_bound_witness :
    (c7Chunk ∈ split_text_into_chunks 1000 200 "Hi. Yo.".toList 1
      "application/octet-stream" [] [] false ["text"] "unknown".toList) ∧
    sentenceAligned (split_into_sentences (pyStrip "Hi. Yo.".toList)) 1000 200 c7Chunk :=
  ⟨by decide,
    split_text_into_chunks_size_bound "Hi. Yo.".toList 1 "application/octet-stream"
      [] [] false ["text"] "unknown".toList c7Chunk (by decide)⟩

theorem pyStrip_not_suffix_sep (s : PyStr) : ¬ PAGE_SEPARATOR <:+ pyStrip s := by
  intro h
  obtain ⟨t, ht⟩ := h
  have hlast : (pyStrip s).getLast? = some '\n' := by
    rw [← ht, List.getLast?_append,
      show PAGE_SEPARATOR.getLast? = some '\n' from by decide]
    rfl
  have := pyStrip_last_not '\n' hlast
  simp [pyIsSpace] at this

/-- C5: the merged whole-document markdown walks the non-blank page contents
in ascending page order, each followed by the fixed separator, and after the
final strip it never ends with the separator text `"\n---\n"` (the strip
removes every trailing whitespace character, so the separator, which ends in
a newline, can never be a suffix). -/
theorem merge_markdown_never_ends_with_separator (page_markdown : PageDict)
    (total_pages : Nat) :
    ¬ PAGE_SEPARATOR <:+ merge_markdown_by_page page_markdown total_pages :=
  pyStrip_not_suffix_sep _

theorem merge_markdown_never_ends_with_separator_witness :
    ¬ PAGE_SEPARATOR <:+ merge_markdown_by_page [(0, "Hello.".toList)] 1 :=
  merge_markdown_never_ends_with_separator [(0, "Hello.".toList)] 1

theorem applyItems_length (upgrade : String → String) (total : Nat) :
    ∀ (items : List (List ProvObj)) (labels : List String),
      (applyItems upgrade total items labels).length = labels.length := by
  intro items
  induction items with
  | nil => intro labels; rfl
  | cons prov rest ih =>
    intro labels
    have hstep : applyItems upgrade total (prov :: rest) labels
        = applyItems upgrade total rest
          (labels.set (pageIdxOf total (get_page_number_from_provenance prov 1))
            (upgrade (labels.getD
              (pageIdxOf total (get_page_number_from_provenance prov 1)) "simple"))) := rfl
    rw [hstep, ih, List.length_set]

theorem applyItems_getD (upgrade : String → String) (total : Nat) :
    ∀ (items : List (List ProvObj)) (labels : List String) (i : Nat),
      i < labels.length →
      (applyItems upgrade total items labels).getD i "simple"
        = upgrade^[items.countP
            (fun prov => pageIdxOf total (get_page_number_from_provenance prov 1) = i)]
            (labels.getD i "simple") := by
  intro items
  induction items with
  | nil => intro labels i h; rfl
  | cons prov rest ih =>
    intro labels i h
    have hstep : applyItems upgrade total (prov :: rest) labels
        = applyItems upgrade total rest
          (labels.set (pageIdxOf total (get_page_number_from_provenance prov 1))
            (upgrade (labels.getD
              (pageIdxOf total (get_page_number_from_provenance prov 1)) "simple"))) := rfl
    rw [hstep, ih _ i (by rw [List.length_set]; exact h)]
    rw [List.countP_cons]
    by_cases hidx : pageIdxOf total (get_page_number_from_provenance prov 1) = i
    · rw [if_pos (by simp [hidx]), hidx]
      rw [List.getD_eq_getElem?_getD, List.getElem?_set_self h, Option.getD_some,
        Function.iterate_succ_apply]
    · rw [if_neg (by simp [hidx]), Nat.add_zero]
      rw [List.getD_eq_getElem?_getD (labels.set _ _), List.getElem?_set_ne hidx,
        ← List.getD_eq_getElem?_getD]

theorem getD_replicate_simple (n i : Nat) :
    (List.replicate n "simple").getD i "simple" = "simple" := by
  rw [List.getD_eq_getElem?_getD, List.getElem?_replicate]
  by_cases h : i < n <;> simp [h]

theorem upgradeTable_iterate_simple (b : Nat) :
    upgradeTable^[b] "simple" = if b = 0 then "simple" else "table" := by
  induction b with
  | zero => rfl
  | succ n ih =>
    rw [Function.iterate_succ_apply', ih]
    by_cases hn : n = 0
    · rw [if_pos hn, if_neg (Nat.succ_ne_zero n)]; rfl
    · rw [if_neg hn, if_neg (Nat.succ_ne_zero n)]; rfl

theorem upgradePicture_iterate_simple (a : Nat) :
    upgradePicture^[a] "simple" = if a = 0 then "simple" else "image" := by
  induction a with
  | zero => rfl
  | succ n ih =>
    rw [Function.iterate_succ_apply', ih]
    by_cases hn : n = 0
    · rw [if_pos hn, if_neg (Nat.succ_ne_zero n)]; rfl
    · rw [if_neg hn, if_neg (Nat.succ_ne_zero n)]; rfl

theorem upgradePicture_iterate_table (a : Nat) :
    upgradePicture^[a] "table" = if a = 0 then "table" else "table+image" := by
  induction a with
  | zero => rfl
  | succ n ih =>
    rw [Function.iterate_succ_apply', ih]
    by_cases hn : n = 0
    · rw [if_pos hn, if_neg (Nat.succ_ne_zero n)]; rfl
    · rw [if_neg hn, if_neg (Nat.succ_ne_zero n)]; rfl

theorem upgradeTable_iterate_image (b : Nat) :
    upgradeTable^[b] "image" = if b = 0 then "image" else "table+image" := by
  induction b with
  | zero => rfl
  | succ n ih =>
    rw [Function.iterate_succ_apply', ih]
    by_cases hn : n = 0
    · rw [if_pos hn, if_neg (Nat.succ_ne_zero n)]; rfl
    · rw [if_neg hn, if_neg (Nat.succ_ne_zero n)]; rfl

theorem upgrade_iter_commute (a b : Nat) :
    upgradePicture^[a] (upgradeTable^[b] "simple")
      = upgradeTable^[b] (upgradePicture^[a] "simple") := by
  rw [upgradeTable_iterate_simple, upgradePicture_iterate_simple]
  by_cases hb : b = 0 <;> by_cases ha : a = 0
  · subst hb; subst ha; rfl
  · rw [if_pos hb, if_neg ha, upgradePicture_iterate_simple, if_neg ha]
    subst hb; rfl
  · rw [if_neg hb, if_pos ha, upgradeTable_iterate_simple, if_neg hb]
    subst ha; rfl
  · rw [if_neg hb, if_neg ha, upgradePicture_iterate_table, if_neg ha,
      upgradeTable_iterate_image, if_neg hb]

theorem applyItems_comm (total : Nat) (tables pics : List (List ProvObj)) :
    applyItems upgradePicture total pics
        (applyItems upgradeTable total tables (List.replicate total "simple"))
      = applyItems upgradeTable total tables
        (applyItems upgradePicture total pics (List.replicate total "simple")) := by
  apply List.ext_getElem
  · simp only [applyItems_length]
  · intro i h1 h2
    have hi : i < total := by
      simp only [applyItems_length, List.length_replicate] at h1
      exact h1
    have e1 := applyItems_getD upgradeTable total tables (List.replicate total "simple")
      i (by simp only [List.length_replicate]; exact hi)
    have e2 := applyItems_getD upgradePicture total pics (List.replicate total "simple")
      i (by simp only [List.length_replicate]; exact hi)
    have e3 := applyItems_getD upgradePicture total pics
      (applyItems upgradeTable total tables (List.replicate total "simple"))
      i (by simp only [applyItems_length, List.length_replicate]; exact hi)
    have e4 := applyItems_getD upgradeTable total tables
      (applyItems upgradePicture total pics (List.replicate total "simple"))
      i (by simp only [applyItems_length, List.length_replicate]; exact hi)
    rw [← List.getD_eq_getElem _ "simple" h1, ← List.getD_eq_getElem _ "simple" h2,
      e3, e1, e4, e2]
    simp only [getD_replicate_simple]
    exact upgrade_iter_commute _ _

/-- C8: complexity triage is order-independent in table/picture discovery
(the labeling is the same whether tables or pictures are scanned first), a
page carrying both a table and a picture is labeled `table+image` under
either scan order, and every page whose label is not `simple` lands in the
complex-page list. -/
theorem analyze_and_triage_pages_order_independent (dr : Option ConvResult)
    (total : Nat) :
    analyze_and_triage_pages dr total = analyze_and_triage_pages_swapped dr total ∧
    (∀ r document i, dr = some r → r.document = some document → i < total →
      (∃ tbl ∈ document.tables,
        pageIdxOf total (get_page_number_from_provenance tbl.prov 1) = i) →
      (∃ pic ∈ document.pictures,
        pageIdxOf total (get_page_number_from_provenance pic.prov 1) = i) →
      (analyze_and_triage_pages dr total).2.2.getD i "simple" = "table+image" ∧
      (analyze_and_triage_pages_swapped dr total).2.2.getD i "simple" = "table+image") ∧
    (∀ p, p < total →
      (analyze_and_triage_pages dr total).2.2.getD p "simple" ≠ "simple" →
      p ∈ (analyze_and_triage_pages dr total).2.1) := by
  refine ⟨?_, ?_, ?_⟩
  · match dr with
    | none => rfl
    | some r =>
      match hd : r.document with
      | none => simp [analyze_and_triage_pages, analyze_and_triage_pages_swapped, hd]
      | some document =>
        simp only [analyze_and_triage_pages, analyze_and_triage_pages_swapped, hd]
        rw [applyItems_comm]
  · rintro r document i rfl hdoc hi ⟨tbl, htblmem, htbl⟩ ⟨pic, hpicmem, hpic⟩
    have hb : 0 < (document.tables.map (fun t => t.prov)).countP
        (fun prov => pageIdxOf total (get_page_number_from_provenance prov 1) = i) := by
      rw [List.countP_pos_iff]
      exact ⟨tbl.prov, List.mem_map_of_mem _ htblmem, by simp [htbl]⟩
    have ha : 0 < (document.pictures.map (fun p => p.prov)).countP
        (fun prov => pageIdxOf total (get_page_number_from_provenance prov 1) = i) := by
      rw [List.countP_pos_iff]
      exact ⟨pic.prov, List.mem_map_of_mem _ hpicmem, by simp [hpic]⟩
    have eT := applyItems_getD upgradeTable total (document.tables.map (fun t => t.prov))
      (List.replicate total "simple") i (by simp only [List.length_replicate]; exact hi)
    have eP := applyItems_getD upgradePicture total
      (document.pictures.map (fun p => p.prov)) (List.replicate total "simple") i
      (by simp only [List.length_replicate]; exact hi)
    have ePT := applyItems_getD upgradePicture total
      (document.pictures.map (fun p => p.prov))
      (applyItems upgradeTable total (document.tables.map (fun t => t.prov))
        (List.replicate total "simple")) i
      (by simp only [applyItems_length, List.length_replicate]; exact hi)
    have eTP := applyItems_getD upgradeTable total
      (document.tables.map (fun t => t.prov))
      (applyItems upgradePicture total (document.pictures.map (fun p => p.prov))
        (List.replicate total "simple")) i
      (by simp only [applyItems_length, List.length_replicate]; exact hi)
    constructor
    · simp only [analyze_and_triage_pages, hdoc]
      rw [ePT, eT, getD_replicate_simple, upgradeTable_iterate_simple,
        if_neg (by omega), upgradePicture_iterate_table, if_neg (by omega)]
    · simp only [analyze_and_triage_pages_swapped, hdoc]
      rw [eTP, eP, getD_replicate_simple, upgradePicture_iterate_simple,
        if_neg (by omega), upgradeTable_iterate_image, if_neg (by omega)]
  · intro p hp hlabel
    have : (analyze_and_triage_pages dr total).2.1
        = (List.range total).filter (fun q =>
            (analyze_and_triage_pages dr total).2.2.getD q "simple" ≠ "simple") := by
      match dr with
      | none => rfl
      | some r =>
        match hd : r.document with
        | none => simp [analyze_and_triage_pages, hd]
        | some document => simp [analyze_and_triage_pages, hd]
    rw [this, List.mem_filter]
    exact ⟨List.mem_range.mpr hp, by simpa using hlabel⟩

theorem analyze_and_triage_pages_order_independent_witness :
    (analyze_and_triage_pages (some c8Doc) 3).2.2.getD 1 "simple" = "table+image" ∧
    (analyze_and_triage_pages_swapped (some c8Doc) 3).2.2.getD 1 "simple" = "table+image" :=
  (analyze_and_triage_pages_order_independent (some c8Doc) 3).2.1
    c8Doc { tables := [{ prov := [{ page_no := some 2 }] }],
            pictures := [{ prov := [{ page_no := some 2 }] }] } 1 rfl rfl (by omega)
    ⟨{ prov := [{ page_no := some 2 }] }, by decide, by decide⟩
    ⟨{ prov := [{ page_no := some 2 }] }, by decide, by decide⟩

/-- C6 counterexample: `process_document` can return `None` for an existing
input path.  With an existing non-PDF file whose conversion succeeds but
yields no document, `process_non_pdf_document` returns `None`
(processor.py lines 493-495), so "returns `None` iff the path does not
exist" fails. -/
theorem process_document_none_for_existing_file :
    c6Env.file_exists "doc.txt".toList = true ∧
    is_pdf_file "doc.txt".toList = false ∧
    process_document c6Env "doc.txt".toList = Except.ok none :=
  ⟨rfl, by decide, by decide⟩

/-- C6 amended: `process_document` never lets an exception escape (the result
is always `Except.ok`), and it returns `None` exactly when the path does not
exist, or the path is a PDF whose initial page-count probe (`fitz.open`,
taken before the `try` in easy mode) raises, or the path is a non-PDF whose
conversion raises or yields no document.  In every other case it returns a
result object. -/
theorem process_document_total (env : Env) (path : PyStr) :
    ∃ v, process_document env path = Except.ok v ∧
      (v = none ↔ (env.file_exists path = false
        ∨ (is_pdf_file path = true ∧ ∃ e, env.fitzPageCount path = Except.error e)
        ∨ (is_pdf_file path = false ∧
            ((∃ e, env.simpleConvert path = Except.error e)
              ∨ ∃ r, env.simpleConvert path = Except.ok r ∧ r.document = none)))) := by
  by_cases hex : env.file_exists path = false
  · refine ⟨none, by rw [process_document, if_pos hex], ?_⟩
    simp [hex]
  · rw [process_document, if_neg hex]
    by_cases hpdf : is_pdf_file path = true
    · cases hfitz : env.fitzPageCount path with
      | error e =>
        have hbody : processDocumentBody env path = Except.error e := by
          rw [processDocumentBody, if_pos hpdf, process_document_easy_mode, hfitz]
        refine ⟨none, by rw [hbody], ?_⟩
        constructor
        · intro _
          exact Or.inr (Or.inl ⟨hpdf, e, rfl⟩)
        · intro _
          rfl
      | ok n =>
        have hbody : ∃ res, processDocumentBody env path = Except.ok (some res) := by
          rw [processDocumentBody, if_pos hpdf, process_document_easy_mode, hfitz]
          cases hconv : env.simpleConvert path with
          | ok r => exact ⟨_, rfl⟩
          | error e => exact ⟨_, rfl⟩
        obtain ⟨res, hres⟩ := hbody
        refine ⟨some res, by rw [hres], ?_⟩
        constructor
        · intro h
          exact absurd h (by simp)
        · rintro (h | ⟨_, e, he⟩ | ⟨hnp, _⟩)
          · exact absurd h hex
          · exact absurd he (by simp)
          · rw [hpdf] at hnp
            exact absurd hnp (by simp)
    · have hpdf' : is_pdf_file path = false := by
        simpa using hpdf
      have hbody : processDocumentBody env path
          = Except.ok (process_non_pdf_document env path) := by
        rw [processDocumentBody, if_neg hpdf]
      rw [hbody]
      cases hconv : env.simpleConvert path with
      | error e =>
        have hnp : process_non_pdf_document env path = none := by
          rw [process_non_pdf_document, hconv]
        refine ⟨none, by rw [hnp], ?_⟩
        exact ⟨fun _ => Or.inr (Or.inr ⟨hpdf', Or.inl ⟨e, rfl⟩⟩), fun _ => rfl⟩
      | ok r =>
        cases hdoc : r.document with
        | none =>
          have hnp : process_non_pdf_document env path = none := by
            simp [process_non_pdf_document, hconv, hdoc]
          refine ⟨none, by rw [hnp], ?_⟩
          exact ⟨fun _ => Or.inr (Or.inr ⟨hpdf', Or.inr ⟨r, rfl, hdoc⟩⟩), fun _ => rfl⟩
        | some document =>
          have hnp : ∃ pr, process_non_pdf_document env path = some pr := by
            simp [process_non_pdf_document, hconv, hdoc]
          obtain ⟨pr, hpr⟩ := hnp
          refine ⟨some pr, by rw [hpr], ?_⟩
          constructor
          · intro h
            exact absurd h (by simp)
          · rintro (h | ⟨hp, _⟩ | ⟨_, (⟨e, he⟩ | ⟨r', hr', hnone⟩)⟩)
            · exact absurd h hex
            · rw [hpdf'] at hp
              exact absurd hp (by simp)
            · exact absurd he (by simp)
            · have hrr : r' = r := by
                injection hr' with h0
                exact h0.symm
              rw [hrr, hdoc] at hnone
              exact absurd hnone (by simp)

end Astryx
